import Mathlib

/-!
A verification development for the myDWM window manager (dwm.c).

The definitions below are a shallow embedding of the relevant parts of
dwm.c.  C `int` values are modelled as `Int`; C `float` values (the
master-area fraction `mfact` and the aspect limits `mina`/`maxa`) are
modelled as `Rat`, with float-to-int conversion modelled as truncation
toward zero (`cInt`).  C integer division and modulo are modelled with
`Int.tdiv`/`Int.tmod` (truncation toward zero), which agree with C's
`/` and `%` on the nonnegative operands that arise here.  X11 calls
have no effect on the modelled state and are dropped.
-/

namespace Dwm

/-- Truncation of a rational to an integer toward zero, as C's cast from
a floating-point value to `int`. -/
def cInt (q : ℚ) : ℤ :=
  if 0 ≤ q then ⌊q⌋ else ⌈q⌉

/-- One managed client (`struct Client` of dwm.c).  The intrusive list
pointers `next`/`snext`, the owning-monitor pointer `mon`, the view
index `view`, the window handle `win` and the title `name` are not part
of this record: list structure is modelled separately where needed. -/
structure Client where
  mina : ℚ
  maxa : ℚ
  x : ℤ
  y : ℤ
  w : ℤ
  h : ℤ
  oldx : ℤ
  oldy : ℤ
  oldw : ℤ
  oldh : ℤ
  basew : ℤ
  baseh : ℤ
  incw : ℤ
  inch : ℤ
  maxw : ℤ
  maxh : ℤ
  minw : ℤ
  minh : ℤ
  bw : ℤ
  oldbw : ℤ
  isfixed : Bool
  isfloating : Bool
  isurgent : Bool
  oldstate : Bool

/-- The zero-initialised client `cz` of `manage`. -/
def client0 : Client :=
  { mina := 0, maxa := 0, x := 0, y := 0, w := 0, h := 0,
    oldx := 0, oldy := 0, oldw := 0, oldh := 0,
    basew := 0, baseh := 0, incw := 0, inch := 0,
    maxw := 0, maxh := 0, minw := 0, minh := 0,
    bw := 0, oldbw := 0,
    isfixed := false, isfloating := false, isurgent := false, oldstate := false }

/-- Monitor geometry (`struct Monitor` of dwm.c): the screen rectangle
`mx,my,mw,mh` and the window-area rectangle `wx,wy,ww,wh`. -/
structure MonG where
  mx : ℤ
  my : ℤ
  mw : ℤ
  mh : ℤ
  wx : ℤ
  wy : ℤ
  ww : ℤ
  wh : ℤ

/-- The aspect-ratio adjustment inside `applysizehints` (dwm.c lines
313-319): guarded by `c->mina > 0 && c->maxa > 0`; if `maxa < w/h` the
width is set to `h*maxa + 0.5` truncated, else if `mina < h/w` the
height is set to `w*mina + 0.5` truncated. -/
def aspectStep (mina maxa : ℚ) (w h : ℤ) : ℤ × ℤ :=
  if 0 < mina ∧ 0 < maxa then
    if maxa < (w : ℚ) / (h : ℚ) then
      (cInt ((h : ℚ) * maxa + 1 / 2), h)
    else if mina < (h : ℚ) / (w : ℚ) then
      (w, cInt ((w : ℚ) * mina + 1 / 2))
    else (w, h)
  else (w, h)

/-- The ICCCM 4.1.2.3 block of `applysizehints` (dwm.c lines 306-337),
run only when `resizehints || c->isfloating`. -/
def hintAdjust (c : Client) (w0 h0 : ℤ) : ℤ × ℤ :=
  let baseismin := c.basew = c.minw ∧ c.baseh = c.minh
  let w := if baseismin then w0 else w0 - c.basew
  let h := if baseismin then h0 else h0 - c.baseh
  let p := aspectStep c.mina c.maxa w h
  let w := if baseismin then p.1 - c.basew else p.1
  let h := if baseismin then p.2 - c.baseh else p.2
  let w := if c.incw ≠ 0 then w - Int.tmod w c.incw else w
  let h := if c.inch ≠ 0 then h - Int.tmod h c.inch else h
  let w := w + c.basew
  let h := h + c.baseh
  let w := max w c.minw
  let h := max h c.minh
  let w := if c.maxw ≠ 0 then min w c.maxw else w
  let h := if c.maxh ≠ 0 then min h c.maxh else h
  (w, h)

/-- The off-screen rescue block of `applysizehints` (dwm.c lines
282-301): against the display when `interact`, else against the owning
monitor's screen rectangle.  `WIDTH(c)`/`HEIGHT(c)` use the client's
current geometry. -/
def rescue (interact : Bool) (sw sh : ℤ) (m : MonG) (c : Client)
    (x0 y0 w h : ℤ) : ℤ × ℤ :=
  match interact with
  | true =>
    let x := if sw < x0 then sw - (c.w + 2 * c.bw) else x0
    let y := if sh < y0 then sh - (c.h + 2 * c.bw) else y0
    let x := if x + w + 2 * c.bw < 0 then 0 else x
    let y := if y + h + 2 * c.bw < 0 then 0 else y
    (x, y)
  | false =>
    let x := if m.mx + m.mw < x0 then m.mx + m.mw - (c.w + 2 * c.bw) else x0
    let y := if m.my + m.mh < y0 then m.my + m.mh - (c.h + 2 * c.bw) else y0
    let x := if x + w + 2 * c.bw < m.mx then m.mx else x
    let y := if y + h + 2 * c.bw < m.my then m.my else y
    (x, y)

/-- `applysizehints` (dwm.c lines 274-340), returning the clamped
`(x, y, w, h)`.  The boolean result of the C function (whether the
rectangle changed) is not needed here: `resize` applies the clamped
rectangle exactly when it changed, so the resulting client geometry is
the clamped rectangle in either case. -/
def applysizehints (resizehints : Bool) (bh sw sh : ℤ) (m : MonG) (c : Client)
    (x0 y0 w0 h0 : ℤ) (interact : Bool) : ℤ × ℤ × ℤ × ℤ :=
  let w := max 1 w0
  let h := max 1 h0
  let p := rescue interact sw sh m c x0 y0 w h
  let h := if h < bh then bh else h
  let w := if w < bh then bh else w
  if resizehints || c.isfloating then
    let q := hintAdjust c w h
    (p.1, p.2, q.1, q.2)
  else (p.1, p.2, w, h)

/-- `resize` (dwm.c lines 345-349): apply `applysizehints` and install
the resulting geometry on the client. -/
def resize (resizehints : Bool) (bh sw sh : ℤ) (m : MonG) (c : Client)
    (x y w h : ℤ) (interact : Bool) : Client :=
  let r := applysizehints resizehints bh sw sh m c x y w h interact
  { c with x := r.1, y := r.2.1, w := r.2.2.1, h := r.2.2.2 }

/-- The `nexttiled` walk (dwm.c lines 1256-1260) applied to a whole
client list: the sublist of non-floating clients in list order. -/
def nexttiledList (cs : List Client) : List Client :=
  cs.filter (fun c => !c.isfloating)

/-- The stack loop of `tile` (dwm.c lines 1673-1679).  `k` is the
number of stack clients (`n` after the decrement), `x`/`w` the stack
column position and width, `hh`/`rh` the per-row base height and
remainder; `y` advances past each placed row while `hh ≠ wh`. -/
def tileStack (resizehints : Bool) (bh sw sh : ℤ) (m : MonG) (k : ℕ)
    (x w hh : ℤ) : ℕ → ℤ → ℤ → List Client → List Client
  | _, _, _, [] => []
  | i, rh, y, c :: rest =>
    let hei := (if i + 1 = k then m.wy + m.wh - y - 2 * c.bw else hh - 2 * c.bw)
               + (if 0 < rh then 1 else 0)
    let c2 := resize resizehints bh sw sh m c x y (w - 2 * c.bw) hei false
    let y2 := if hh ≠ m.wh then c2.y + (c2.h + 2 * c2.bw) else y
    c2 :: tileStack resizehints bh sw sh m k x w hh (i + 1) (rh - 1) y2 rest

/-- The body of `tile` (dwm.c lines 1654-1679) after the tiled-client
count is known: `c` is the master (first tiled client), `rest` the
stack clients, and `mw` the already-truncated integer master width
`mfact * ww` (the C assignment `mw = SELVIEW( m ).mfact * m->ww;`
stores into an `int`). -/
def tileTiled (resizehints : Bool) (bh sw sh : ℤ) (m : MonG) (mw : ℤ)
    (c : Client) (rest : List Client) : List Client :=
  let n : ℕ := rest.length + 1
  let c1 := resize resizehints bh sw sh m c m.wx m.wy
      ((if n = 1 then m.ww else mw) - 2 * c.bw) (m.wh - 2 * c.bw) false
  if rest.isEmpty then [c1]
  else
    let k := n - 1
    let x := if c1.x + c1.w < m.wx + mw then c1.x + c1.w + 2 * c1.bw else m.wx + mw
    let w := if c1.x + c1.w < m.wx + mw then m.wx + m.ww - x else m.ww - mw
    let hh0 := Int.tdiv m.wh (k : ℤ)
    let rh0 := Int.tmod m.wh (k : ℤ)
    let hh := if hh0 < bh then m.wh else hh0
    let rh := if hh0 < bh then 0 else rh0
    c1 :: tileStack resizehints bh sw sh m k x w hh 0 rh m.wy rest

/-- The `tile` arranger (dwm.c lines 1644-1680), acting on the client
list of the monitor's selected view.  Floating clients are skipped by
`nexttiled` and left untouched; the function returns the arranged
tiled clients in list order (master first). -/
def tile (resizehints : Bool) (bh sw sh : ℤ) (m : MonG) (mfact : ℚ)
    (clients : List Client) : List Client :=
  match nexttiledList clients with
  | [] => []
  | c :: rest => tileTiled resizehints bh sw sh m (cInt (mfact * (m.ww : ℚ))) c rest

/-- The relevant content of an `XSizeHints` record as read by
`updatesizehints` (dwm.c lines 1874-1922).  The `has*` flags model the
`PBaseSize`/`PMinSize`/`PMaxSize`/`PResizeInc`/`PAspect` bits of
`size.flags`; when `XGetWMNormalHints` fails the code uses
`size.flags = PSize`, i.e. all five flags false. -/
structure XSizeHintsM where
  hasBase : Bool
  hasMin : Bool
  hasMax : Bool
  hasInc : Bool
  hasAspect : Bool
  base_width : ℤ
  base_height : ℤ
  min_width : ℤ
  min_height : ℤ
  max_width : ℤ
  max_height : ℤ
  width_inc : ℤ
  height_inc : ℤ
  min_aspect_x : ℤ
  min_aspect_y : ℤ
  max_aspect_x : ℤ
  max_aspect_y : ℤ

/-- `updatesizehints` (dwm.c lines 1874-1922): re-read the size hints
into the client and recompute `isfixed`.  Note that it does not touch
`isfloating`. -/
def updatesizehints (c : Client) (sz : XSizeHintsM) : Client :=
  let basew := if sz.hasBase then sz.base_width else if sz.hasMin then sz.min_width else 0
  let baseh := if sz.hasBase then sz.base_height else if sz.hasMin then sz.min_height else 0
  let incw := if sz.hasInc then sz.width_inc else 0
  let inch := if sz.hasInc then sz.height_inc else 0
  let maxw := if sz.hasMax then sz.max_width else 0
  let maxh := if sz.hasMax then sz.max_height else 0
  let minw := if sz.hasMin then sz.min_width else if sz.hasBase then sz.base_width else 0
  let minh := if sz.hasMin then sz.min_height else if sz.hasBase then sz.base_height else 0
  let mina := if sz.hasAspect then (sz.min_aspect_y : ℚ) / (sz.min_aspect_x : ℚ) else 0
  let maxa := if sz.hasAspect then (sz.max_aspect_x : ℚ) / (sz.max_aspect_y : ℚ) else 0
  let fixed := decide (maxw ≠ 0 ∧ minw ≠ 0 ∧ maxh ≠ 0 ∧ minh ≠ 0 ∧ maxw = minw ∧ maxh = minh)
  { c with basew := basew, baseh := baseh, incw := incw, inch := inch,
           maxw := maxw, maxh := maxh, minw := minw, minh := minh,
           mina := mina, maxa := maxa, isfixed := fixed }

/-- The `XA_WM_NORMAL_HINTS` case of `propertynotify` (dwm.c lines
1289-1291): it only calls `updatesizehints`. -/
def propertynotifyNormalHints (c : Client) (sz : XSizeHintsM) : Client :=
  updatesizehints c sz

/-- The floating-promotion step of `manage` (dwm.c line 1111):
`if(!c->isfloating) c->isfloating = c->oldstate = trans != None || c->isfixed;`. -/
def manageFloatStep (c : Client) (hasTrans : Bool) : Client :=
  if !c.isfloating then
    { c with isfloating := hasTrans || c.isfixed, oldstate := hasTrans || c.isfixed }
  else c

/-- `togglefloating` (dwm.c lines 1690-1700) as it acts on the selected
client: flip `isfloating` (forced true for fixed clients); if floating,
re-resize at the current rectangle. -/
def togglefloatingClient (resizehints : Bool) (bh sw sh : ℤ) (m : MonG)
    (c : Client) : Client :=
  let c := { c with isfloating := !c.isfloating || c.isfixed }
  if c.isfloating then resize resizehints bh sw sh m c c.x c.y c.w c.h false else c

/-- `resizeclient` (dwm.c lines 1351-1363): save the current rectangle
into the `old*` fields and install the new one. -/
def resizeclient (c : Client) (x y w h : ℤ) : Client :=
  { c with oldx := c.x, x := x, oldy := c.y, y := y,
           oldw := c.w, w := w, oldh := c.h, h := h }

/-- The fullscreen-set branch of `clientmessage` (dwm.c lines
1315-1324): save `oldstate`/`oldbw`, clear the border, set floating
and resize to the monitor's screen rectangle. -/
def clientmessageFullscreen (c : Client) (m : MonG) : Client :=
  let c := { c with oldstate := c.isfloating, oldbw := c.bw, bw := 0, isfloating := true }
  resizeclient c m.mx m.my m.mw m.mh

/-- The fullscreen-unset branch of `clientmessage` (dwm.c lines
1325-1336): restore floating state, border width and the saved
rectangle, then `resizeclient` at the restored rectangle. -/
def clientmessageUnfullscreen (c : Client) : Client :=
  let c := { c with isfloating := c.oldstate, bw := c.oldbw,
                    x := c.oldx, y := c.oldy, w := c.oldw, h := c.oldh }
  resizeclient c c.x c.y c.w c.h

/-- `setmfact` (dwm.c lines 1513-1524) as a function of the selected
view's current `mfact`: the delta must be in (-1, 1), the current
layout must have an arranger, and the new value must stay in
[0.1, 0.9], else nothing changes. -/
def setmfact (hasArrange : Bool) (mfact d : ℚ) : ℚ :=
  if (-1 < d ∧ d < 1) ∧ hasArrange = true then
    let f := d + mfact
    if 1 / 10 ≤ f ∧ f ≤ 9 / 10 then f else mfact
  else mfact

/-- The per-view initialisation of `createmon` (dwm.c lines 576-580):
every one of the 9 views gets the configured default `mfact`. -/
def createmonMfacts (mfactConf : ℚ) : List ℚ :=
  List.replicate 9 mfactConf

/-- Which square `drawsquare` (dwm.c lines 707-726) paints: a filled
square when `filled`, else an empty square outline when `empty`, else
nothing. -/
inductive SquareKind where
  | filledSq
  | emptySq
  | noSq
deriving DecidableEq, Repr

/-- `drawsquare` (dwm.c lines 707-726) restricted to which square it
draws. -/
def drawsquare (filled empty : Bool) : SquareKind :=
  if filled then .filledSq else if empty then .emptySq else .noSq

/-- The `occ` flag computed per tag by `drawbar` (dwm.c line 653):
`occ = ( NULL == m->views[ i ].clients )`. -/
def occDrawbar (clients : List ℕ) : Bool :=
  clients.isEmpty

/-- The square drawn on tag label `i` by `drawbar` (dwm.c lines
650-659): `drawsquare( m == selmon && m->views[ i ].sel && i == m->selview, occ, urg, col )`. -/
def tagSquare (isSelmon : Bool) (viewSel : Option ℕ) (isSelview : Bool)
    (clients : List ℕ) : SquareKind :=
  drawsquare (isSelmon && viewSel.isSome && isSelview) (occDrawbar clients)

/-- Output channel of a diagnostic message. -/
inductive OutChan where
  | stdoutC
  | stderrC
deriving DecidableEq, Repr

/-- Which message the argument check of `main` emits. -/
inductive DieMsg where
  | versionMsg
  | usageMsg
deriving DecidableEq, Repr

/-- The literal version flag. -/
def vstr : String := "-v"

/-- The argument handling of `main` (dwm.c lines 2044-2049) together
with the behaviour of `die` (dwm.c lines 613-621): `die` prints with
`vfprintf(stderr, ...)` and calls `exit(EXIT_FAILURE)`, i.e. exit
status 1.  Returns `none` when the program proceeds to run. -/
def mainArgCheck (argv : List String) : Option (DieMsg × OutChan × ℕ) :=
  if argv.length = 2 ∧ argv.get? 1 = some vstr then
    some (.versionMsg, .stderrC, 1)
  else if argv.length ≠ 1 then
    some (.usageMsg, .stderrC, 1)
  else none

/-- The geometry part of `manage` (dwm.c lines 1081-1102).  `mby` is
the monitor's bar y-coordinate `m->by`; `wax way waw wah wabw` are the
window attributes.  At this point the client is the zero-initialised
`cz`, so `c->bw = 0` inside the else-branch (`WIDTH(c) = c->w`). -/
def manageGeom (m : MonG) (mby bh borderpx : ℤ) (wax way waw wah wabw : ℤ) : Client :=
  let c := { client0 with x := wax + m.wx, oldx := wax + m.wx,
                          y := way + m.wy, oldy := way + m.wy,
                          w := waw, oldw := waw, h := wah, oldh := wah,
                          oldbw := wabw }
  if c.w = m.mw ∧ c.h = m.mh then
    { c with isfloating := true, x := m.mx, y := m.my, bw := 0 }
  else
    let x1 := if m.mx + m.mw < c.x + (c.w + 2 * c.bw) then m.mx + m.mw - (c.w + 2 * c.bw) else c.x
    let y1 := if m.my + m.mh < c.y + (c.h + 2 * c.bw) then m.my + m.mh - (c.h + 2 * c.bw) else c.y
    let x2 := max x1 m.mx
    let y2 := max y1 (if mby = 0 ∧ m.wx ≤ x2 + Int.tdiv c.w 2 ∧ x2 + Int.tdiv c.w 2 < m.wx + m.ww
                      then bh else m.my)
    { c with x := x2, y := y2, bw := borderpx }

/-! ### The monitor/view/focus-stack state machine

For the focus-stack invariant (spec §3 invariant 2) the client records
are reduced to identifiers; each view holds its client list, focus
stack and selected client, and a registry `cl` holds each client's
owning monitor index and view index (the `mon` and `view` fields of
`struct Client`).  X11 side effects (`unfocus`, `clearurgent`, grabs,
`showhide`, `restack`, bar drawing) have no modelled state. -/

/-- Client identifier. -/
abbrev CId := ℕ

/-- One view (`struct View` of dwm.c): client list, selected client,
focus stack.  The layout pointer is irrelevant here. -/
structure ViewS where
  clients : List CId
  sel : Option CId
  stack : List CId
deriving DecidableEq, Repr

/-- One monitor, reduced to its selected view index and its views. -/
structure MonS where
  selview : ℕ
  views : List ViewS
deriving DecidableEq, Repr

/-- The `mon` and `view` fields of a client record, as indices. -/
structure CRec where
  mon : ℕ
  view : ℕ
deriving DecidableEq, Repr

/-- Global window-manager state: the monitor list, the selected
monitor index and the client registry. -/
structure WM where
  mons : List MonS
  selmon : ℕ
  cl : CId → CRec

/-- Default view used out of range. -/
def view0 : ViewS := ⟨[], none, []⟩

/-- Default monitor used out of range. -/
def mon0 : MonS := ⟨0, []⟩

/-- Monitor at index `i`. -/
def getMon (s : WM) (i : ℕ) : MonS := s.mons.getD i mon0

/-- View `j` of monitor `m`. -/
def getViewM (m : MonS) (j : ℕ) : ViewS := m.views.getD j view0

/-- Replace view `j` of monitor `i` by `f` applied to it. -/
def modifyView (s : WM) (i j : ℕ) (f : ViewS → ViewS) : WM :=
  let m := getMon s i
  { s with mons := s.mons.set i { m with views := m.views.set j (f (getViewM m j)) } }

/-- The selected view of the monitor at index `k` (`SELVIEW`). -/
def selviewAt (s : WM) (k : ℕ) : ViewS := getViewM (getMon s k) (getMon s k).selview

/-- The selected view of the selected monitor (`SELVIEW( selmon )`). -/
def selviewOf (s : WM) : ViewS := selviewAt s s.selmon

/-- `attach` (dwm.c lines 363-367): prepend `c` to the client list of
its view. -/
def attachOp (s : WM) (c : CId) : WM :=
  modifyView s (s.cl c).mon (s.cl c).view (fun v => { v with clients := c :: v.clients })

/-- `detach` (dwm.c lines 594-600): remove `c` from the client list of
its view. -/
def detachOp (s : WM) (c : CId) : WM :=
  modifyView s (s.cl c).mon (s.cl c).view (fun v => { v with clients := v.clients.erase c })

/-- `attachstack` (dwm.c lines 369-373): prepend `c` to the focus
stack of its view. -/
def attachstackOp (s : WM) (c : CId) : WM :=
  modifyView s (s.cl c).mon (s.cl c).view (fun v => { v with stack := c :: v.stack })

/-- The effect of `detachstack` (dwm.c lines 602-611) on a view:
remove `c` from the stack, and if `c` was the view's `sel`, point
`sel` at the new stack head. -/
def dstackView (v : ViewS) (c : CId) : ViewS :=
  let st := v.stack.erase c
  { v with stack := st, sel := if v.sel = some c then st.head? else v.sel }

/-- `detachstack` (dwm.c lines 602-611). -/
def detachstackOp (s : WM) (c : CId) : WM :=
  modifyView s (s.cl c).mon (s.cl c).view (fun v => dstackView v c)

/-- The final `SELVIEW( selmon ).sel = c` assignment of `focus`
(dwm.c line 802). -/
def setsel (s : WM) (oc : Option CId) : WM :=
  modifyView s s.selmon (getMon s s.selmon).selview (fun v => { v with sel := oc })

/-- Update the registry record of client `c`. -/
def setcl (s : WM) (c : CId) (r : CRec) : WM :=
  { s with cl := fun k => if k = c then r else s.cl k }

/-- The non-null branch of `focus` (dwm.c lines 789-802): switch the
selected monitor to the client's monitor if needed, move the client to
the head of its view's focus stack, and select it.  `unfocus`,
`clearurgent`, the grabs and the X focus calls have no modelled
effect. -/
def focusClient (s : WM) (c : CId) : WM :=
  let s1 := if (s.cl c).mon ≠ s.selmon then { s with selmon := (s.cl c).mon } else s
  setsel (attachstackOp (detachstackOp s1 c) c) (some c)

/-- `focus` (dwm.c lines 783-804): a null argument falls back to the
head of the selected view's focus stack; with no candidate, only
`SELVIEW( selmon ).sel = NULL` remains. -/
def focusOp (s : WM) (oc : Option CId) : WM :=
  match oc with
  | some c => focusClient s c
  | none =>
    match (selviewOf s).stack.head? with
    | some c => focusClient s c
    | none => setsel s none

/-- `sendmon` (dwm.c lines 1480-1493): detach the client from its
monitor, re-home it to monitor `mi` (selected view of `mi`), attach
there, then `focus(NULL)` and `arrange(NULL)` (whose only modelled
effect is another `focus(NULL)`). -/
def sendmonOp (s : WM) (c : CId) (mi : ℕ) : WM :=
  if (s.cl c).mon ≠ mi then
    let s1 := detachstackOp (detachOp s c) c
    let s2 := setcl s1 c ⟨mi, (getMon s1 mi).selview⟩
    let s3 := attachstackOp (attachOp s2 c) c
    focusOp (focusOp s3 none) none
  else s

/-- `tag` (dwm.c lines 1612-1624): move the selected client to view
`ui` of its monitor, then `arrange(selmon)` (modelled effect:
`focus(NULL)`). -/
def tagOp (s : WM) (ui : ℕ) : WM :=
  match (selviewOf s).sel with
  | some c =>
    let s1 := detachstackOp (detachOp s c) c
    let s2 := setcl s1 c ⟨(s1.cl c).mon, ui⟩
    let s3 := attachstackOp (attachOp s2 c) c
    focusOp s3 none
  | none => s

/-- `unmanage` (dwm.c lines 1712-1734): detach the client from both
lists, then `focus(NULL)` and `arrange(m)` (modelled effect: another
`focus(NULL)`). -/
def unmanageOp (s : WM) (c : CId) : WM :=
  let s1 := detachstackOp (detachOp s c) c
  focusOp (focusOp s1 none) none

/-- Spec §3 invariant 2 for one view: `sel` is null or the head of the
focus stack. -/
def viewInv (v : ViewS) : Prop :=
  v.sel = none ∨ v.sel = v.stack.head?

/-- The claimed invariant: for every monitor, its selected view
satisfies `viewInv`. -/
def Inv (s : WM) : Prop :=
  ∀ k, k < s.mons.length → viewInv (selviewAt s k)

/-- Structural well-formedness (spec §3 invariant 1, restricted to
what the proofs need): the selected monitor index and each monitor's
selected view index are in range, and every view's focus stack is
duplicate-free and contains only clients registered to that view. -/
def WF (s : WM) : Prop :=
  s.selmon < s.mons.length ∧
  ∀ i, i < s.mons.length →
    (getMon s i).selview < (getMon s i).views.length ∧
    ∀ j, j < (getMon s i).views.length →
      (getViewM (getMon s i) j).stack.Nodup ∧
      ∀ c ∈ (getViewM (getMon s i) j).stack, s.cl c = ⟨i, j⟩

/-- The part of `WF` concerning the selected monitor's selected view:
indices in range and the focus stack's members registered to it.  This
is what `focus(NULL)` needs to re-establish `viewInv` there. -/
def SelOK (s : WM) : Prop :=
  s.selmon < s.mons.length ∧
  (getMon s s.selmon).selview < (getMon s s.selmon).views.length ∧
  ∀ c ∈ (selviewOf s).stack, s.cl c = ⟨s.selmon, (getMon s s.selmon).selview⟩

instance (v : ViewS) : Decidable (viewInv v) := by
  unfold viewInv
  infer_instance

instance (s : WM) : Decidable (Inv s) := by
  unfold Inv
  infer_instance

instance (s : WM) : Decidable (WF s) := by
  unfold WF
  infer_instance

instance (s : WM) : Decidable (SelOK s) := by
  unfold SelOK
  infer_instance

/-! ### Claim theorems -/

/-- C1 (counterexample): on the 1920x1080 monitor with `mfact = 0.55`,
border 1, `bh = 14`, bar on top, tiling two non-floating clients
mapped W1-then-W2 (so the list is `[W2, W1]`, since `attach`
prepends), the computed rectangles are `[(0,14,1054,1064),
(1056,14,862,1064)]` — that is, W2 (the head, the master) gets
`(0,14,1054,1064)`, not W1 as the claim states. -/
theorem claim1_counterexample :
    ((tile false 14 1920 1080 ⟨0, 0, 1920, 1080, 0, 14, 1920, 1066⟩ (11 / 20)
        [{ client0 with w := 400, h := 250, bw := 1 },
         { client0 with w := 300, h := 200, bw := 1 }]).map
        (fun c => (c.x, c.y, c.w, c.h)))
      = [(0, 14, 1054, 1064), (1056, 14, 862, 1064)] ∧
    ((tile false 14 1920 1080 ⟨0, 0, 1920, 1080, 0, 14, 1920, 1066⟩ (11 / 20)
        [{ client0 with w := 400, h := 250, bw := 1 },
         { client0 with w := 300, h := 200, bw := 1 }]).map
        (fun c => (c.x, c.y, c.w, c.h)))
      ≠ [(1056, 14, 862, 1064), (0, 14, 1054, 1064)] := by
  have key : tile false 14 1920 1080 ⟨0, 0, 1920, 1080, 0, 14, 1920, 1066⟩ (11 / 20)
        [{ client0 with w := 400, h := 250, bw := 1 },
         { client0 with w := 300, h := 200, bw := 1 }]
      = tileTiled false 14 1920 1080 ⟨0, 0, 1920, 1080, 0, 14, 1920, 1066⟩
          (cInt (11 / 20 * ((1920 : ℤ) : ℚ)))
          { client0 with w := 400, h := 250, bw := 1 }
          [{ client0 with w := 300, h := 200, bw := 1 }] := rfl
  have hmw : cInt (11 / 20 * ((1920 : ℤ) : ℚ)) = 1056 := by
    have h1 : (11 / 20 : ℚ) * ((1920 : ℤ) : ℚ) = ((1056 : ℤ) : ℚ) := by
      push_cast
      norm_num
    unfold cInt
    rw [h1, if_pos (by positivity), Int.floor_intCast]
  rw [key, hmw]
  decide

/-- C1 (amended): in the same scenario the master rectangle
`(0,14,1054,1064)` goes to W2 — the most recently mapped client, which
`attach` puts at the head of the client list — and W1 gets the stack
rectangle `(1056,14,862,1064)`. -/
theorem claim1_amended :
    ((tile false 14 1920 1080 ⟨0, 0, 1920, 1080, 0, 14, 1920, 1066⟩ (11 / 20)
        [{ client0 with w := 400, h := 250, bw := 1 },
         { client0 with w := 300, h := 200, bw := 1 }]).map
        (fun c => (c.x, c.y, c.w, c.h)))
      = [(0, 14, 1054, 1064), (1056, 14, 862, 1064)] := by
  have key : tile false 14 1920 1080 ⟨0, 0, 1920, 1080, 0, 14, 1920, 1066⟩ (11 / 20)
        [{ client0 with w := 400, h := 250, bw := 1 },
         { client0 with w := 300, h := 200, bw := 1 }]
      = tileTiled false 14 1920 1080 ⟨0, 0, 1920, 1080, 0, 14, 1920, 1066⟩
          (cInt (11 / 20 * ((1920 : ℤ) : ℚ)))
          { client0 with w := 400, h := 250, bw := 1 }
          [{ client0 with w := 300, h := 200, bw := 1 }] := rfl
  have hmw : cInt (11 / 20 * ((1920 : ℤ) : ℚ)) = 1056 := by
    have h1 : (11 / 20 : ℚ) * ((1920 : ℤ) : ℚ) = ((1056 : ℤ) : ℚ) := by
      push_cast
      norm_num
    unfold cInt
    rw [h1, if_pos (by positivity), Int.floor_intCast]
  rw [key, hmw]
  decide

/-- `resize` with `resizehints` off on a non-floating client, when the
proposed rectangle triggers none of the clamps of `applysizehints`:
the rectangle is installed unchanged. -/
theorem resize_noclamp (bh sw sh : ℤ) (m : MonG) (c : Client) (x y w h : ℤ)
    (hfl : c.isfloating = false)
    (hw1 : 1 ≤ w) (hh1 : 1 ≤ h) (hwb : bh ≤ w) (hhb : bh ≤ h)
    (hx1 : x ≤ m.mx + m.mw) (hx2 : m.mx ≤ x + w + 2 * c.bw)
    (hy1 : y ≤ m.my + m.mh) (hy2 : m.my ≤ y + h + 2 * c.bw) :
    resize false bh sw sh m c x y w h false
      = { c with x := x, y := y, w := w, h := h } := by
  have hmw : max (1 : ℤ) w = w := max_eq_right hw1
  have hmh : max (1 : ℤ) h = h := max_eq_right hh1
  unfold resize applysizehints rescue
  simp only [hfl, hmw, hmh, Bool.or_self, Bool.false_eq_true, if_false]
  rw [if_neg (not_lt.mpr hx1), if_neg (not_lt.mpr hy1)]
  rw [if_neg (not_lt.mpr (by omega : m.mx ≤ x + w + 2 * c.bw)),
      if_neg (not_lt.mpr (by omega : m.my ≤ y + h + 2 * c.bw))]
  rw [if_neg (not_lt.mpr hhb), if_neg (not_lt.mpr hwb)]

/-- The stack loop of `tile`, specified: under the no-clamp conditions
every placed row keeps the column width (minus its own borders), and
the heights plus borders of the rows exactly exhaust the window-area
height below `y`. -/
theorem tileStack_spec (bh sw sh : ℤ) (m : MonG) (k : ℕ) (x w hh rh0 : ℤ)
    (hbh : 1 ≤ bh)
    (hx1 : x ≤ m.mx + m.mw) (hx2 : m.mx ≤ x + w)
    (hmy : m.my ≤ m.wy) (hwhm : m.wy + m.wh ≤ m.my + m.mh)
    (hsum : (k : ℤ) * hh + rh0 = m.wh)
    (hrh0 : 0 ≤ rh0) (hrh0k : rh0 < (k : ℤ)) (hhh0 : 0 ≤ hh) :
    ∀ (l : List Client) (i : ℕ) (y : ℤ),
      l ≠ [] →
      l.length + i = k →
      y = m.wy + (i : ℤ) * hh + min rh0 (i : ℤ) →
      (∀ c ∈ l, c.isfloating = false ∧ 0 ≤ c.bw ∧
          bh ≤ hh - 2 * c.bw ∧ bh ≤ w - 2 * c.bw) →
      (∀ r ∈ tileStack false bh sw sh m k x w hh i (rh0 - (i : ℤ)) y l,
          r.w = w - 2 * r.bw ∧ 0 ≤ r.bw) ∧
      ((tileStack false bh sw sh m k x w hh i (rh0 - (i : ℤ)) y l).map
          (fun r => r.h + 2 * r.bw)).sum = m.wy + m.wh - y := by
  intro l
  induction l with
  | nil => intro i y hne; exact absurd rfl hne
  | cons c t ih =>
    intro i y _ hlen hy hcl
    simp only [List.length_cons] at hlen
    obtain ⟨hcf, hcb, hch, hcw⟩ := hcl c (List.mem_cons_self c t)
    have hik1 : (i : ℤ) + 1 ≤ (k : ℤ) := by exact_mod_cast (by omega : i + 1 ≤ k)
    have hminle : min rh0 (i : ℤ) ≤ rh0 := min_le_left _ _
    have hminge : (0 : ℤ) ≤ min rh0 (i : ℤ) := le_min hrh0 (Int.natCast_nonneg i)
    have hprod : (i : ℤ) * hh ≤ ((k : ℤ) - 1) * hh :=
      mul_le_mul_of_nonneg_right (by omega) hhh0
    have hkk : ((k : ℤ) - 1) * hh = (k : ℤ) * hh - hh := by ring
    have hyge : m.wy ≤ y := by
      have h0 : (0 : ℤ) ≤ (i : ℤ) * hh := mul_nonneg (Int.natCast_nonneg i) hhh0
      linarith
    have hyle : y ≤ m.my + m.mh := by linarith
    by_cases hik : i + 1 = k
    · -- last row: the remainder is exhausted and the row closes the gap to wh
      have ht0 : t = [] := List.length_eq_zero.mp (by omega)
      subst ht0
      have hik2 : (i : ℤ) + 1 = (k : ℤ) := by exact_mod_cast hik
      have hminr : min rh0 (i : ℤ) = rh0 := min_eq_left (by omega)
      rw [hminr] at hy
      have hkmul : (k : ℤ) * hh = (i : ℤ) * hh + hh := by rw [← hik2]; ring
      have hyy : m.wy + m.wh - y = hh := by linarith
      have hrne : ¬ (0 < rh0 - (i : ℤ)) := by omega
      have hres : resize false bh sw sh m c x y (w - 2 * c.bw)
            (m.wy + m.wh - y - 2 * c.bw + 0) false
          = { c with x := x, y := y, w := w - 2 * c.bw,
                     h := m.wy + m.wh - y - 2 * c.bw + 0 } :=
        resize_noclamp bh sw sh m c x y _ _ hcf (by omega) (by omega) (by omega)
          (by omega) hx1 (by omega) hyle (by omega)
      simp only [tileStack]
      rw [if_pos hik, if_neg hrne, hres]
      refine ⟨?_, ?_⟩
      · intro r hr
        rw [List.mem_singleton] at hr
        subst hr
        exact ⟨rfl, hcb⟩
      · simp only [List.map_cons, List.map_nil, List.sum_cons, List.sum_nil]
        show m.wy + m.wh - y - 2 * c.bw + 0 + 2 * c.bw + 0 = m.wy + m.wh - y
        ring
    · -- middle row: height hh - 2 bw (+1 while remainder pixels remain)
      have htne : t ≠ [] := fun h0 => by subst h0; simp at hlen; omega
      have hik2 : (i : ℤ) + 1 < (k : ℤ) := by exact_mod_cast (by omega : i + 1 < k)
      have hhh1 : (1 : ℤ) ≤ hh := by omega
      have hk2 : (2 : ℤ) ≤ (k : ℤ) := by omega
      have h2hh : 2 * hh ≤ (k : ℤ) * hh := mul_le_mul_of_nonneg_right hk2 hhh0
      have hhne : hh ≠ m.wh := by
        intro hcon
        rw [← hcon] at hsum
        linarith
      simp only [tileStack]
      rw [if_neg hik]
      set d : ℤ := if 0 < rh0 - (i : ℤ) then (1 : ℤ) else 0 with hd
      have hd0 : 0 ≤ d := by rw [hd]; split_ifs <;> omega
      have hd1 : d ≤ 1 := by rw [hd]; split_ifs <;> omega
      have hres : resize false bh sw sh m c x y (w - 2 * c.bw) (hh - 2 * c.bw + d) false
          = { c with x := x, y := y, w := w - 2 * c.bw, h := hh - 2 * c.bw + d } :=
        resize_noclamp bh sw sh m c x y _ _ hcf (by omega) (by omega) (by omega)
          (by omega) hx1 (by omega) hyle (by omega)
      rw [hres, if_pos hhne]
      have hpr : ({ c with x := x, y := y, w := w - 2 * c.bw, h := hh - 2 * c.bw + d } : Client).y + (({ c with x := x, y := y, w := w - 2 * c.bw, h := hh - 2 * c.bw + d } : Client).h + 2 * ({ c with x := x, y := y, w := w - 2 * c.bw, h := hh - 2 * c.bw + d } : Client).bw) = y + (hh + d) := by
        show y + (hh - 2 * c.bw + d + 2 * c.bw) = y + (hh + d)
        ring
      rw [hpr]
      have hrr : rh0 - (i : ℤ) - 1 = rh0 - ((i + 1 : ℕ) : ℤ) := by push_cast; ring
      rw [hrr]
      have hexp : ((i : ℤ) + 1) * hh = (i : ℤ) * hh + hh := by ring
      have hymin : y + (hh + d)
          = m.wy + ((i + 1 : ℕ) : ℤ) * hh + min rh0 ((i + 1 : ℕ) : ℤ) := by
        push_cast
        rcases lt_or_le (i : ℤ) rh0 with hlt | hle
        · have hdv : d = 1 := by rw [hd, if_pos (by omega)]
          have hm1 : min rh0 (i : ℤ) = (i : ℤ) := min_eq_right (by omega)
          have hm2 : min rh0 ((i : ℤ) + 1) = (i : ℤ) + 1 := min_eq_right (by omega)
          rw [hm1] at hy
          rw [hdv, hm2]
          linarith
        · have hdv : d = 0 := by rw [hd, if_neg (by omega)]
          have hm1 : min rh0 (i : ℤ) = rh0 := min_eq_left hle
          have hm2 : min rh0 ((i : ℤ) + 1) = rh0 := min_eq_left (by omega)
          rw [hm1] at hy
          rw [hdv, hm2]
          linarith
      have hih := ih (i + 1) (y + (hh + d)) htne (by omega) hymin
        (fun c' hc' => hcl c' (List.mem_cons_of_mem c hc'))
      refine ⟨?_, ?_⟩
      · intro r hr
        rcases List.mem_cons.mp hr with hr1 | hr2
        · subst hr1
          exact ⟨rfl, hcb⟩
        · exact hih.1 r hr2
      · simp only [List.map_cons, List.sum_cons]
        rw [hih.2]
        show hh - 2 * c.bw + d + 2 * c.bw + (m.wy + m.wh - (y + (hh + d))) = m.wy + m.wh - y
        ring

/-- The arranging part of `tile` with at least two tiled clients,
specified: under no-clamp hypotheses the master spans the master area
exactly and the stack rows exactly exhaust the window area. -/
theorem tileTiled_spec (bh sw sh : ℤ) (m : MonG) (M : ℤ) (c0 r0 : Client)
    (rest : List Client)
    (hgx : m.wx = m.mx) (hgw : m.ww = m.mw)
    (hgy : m.my ≤ m.wy) (hgh : m.wy + m.wh ≤ m.my + m.mh)
    (hbh : 1 ≤ bh)
    (hfl : ∀ c ∈ c0 :: r0 :: rest, c.isfloating = false)
    (hMww : M ≤ m.ww)
    (hm0 : 0 ≤ c0.bw) (hm1 : bh ≤ M - 2 * c0.bw) (hm2 : bh ≤ m.wh - 2 * c0.bw)
    (hst : ∀ c ∈ r0 :: rest, 0 ≤ c.bw ∧
        bh ≤ Int.tdiv m.wh (((r0 :: rest).length : ℕ) : ℤ) - 2 * c.bw ∧
        bh ≤ m.ww - M - 2 * c.bw) :
    ∃ outRest,
      tileTiled false bh sw sh m M c0 (r0 :: rest)
        = { c0 with x := m.wx, y := m.wy, w := M - 2 * c0.bw, h := m.wh - 2 * c0.bw } :: outRest ∧
      (∀ r ∈ outRest, r.w = m.ww - M - 2 * r.bw ∧ 0 ≤ r.bw) ∧
      (outRest.map (fun r => r.h + 2 * r.bw)).sum = m.wh := by
  have hM1 : 1 ≤ M := by omega
  have hwh1 : 1 ≤ m.wh := by omega
  obtain ⟨hr0b, hr0h, hr0w⟩ := hst r0 (List.mem_cons_self r0 rest)
  simp only [List.length_cons] at hr0h
  have hK1 : (1 : ℤ) ≤ ((rest.length + 1 : ℕ) : ℤ) := by exact_mod_cast Nat.succ_le_succ (Nat.zero_le _)
  have htd : Int.tdiv m.wh ((rest.length + 1 : ℕ) : ℤ)
      = m.wh / ((rest.length + 1 : ℕ) : ℤ) := Int.tdiv_eq_ediv (by omega) (by omega)
  have htm : Int.tmod m.wh ((rest.length + 1 : ℕ) : ℤ)
      = m.wh % ((rest.length + 1 : ℕ) : ℤ) := Int.tmod_eq_emod (by omega) (by omega)
  have hres : resize false bh sw sh m c0 m.wx m.wy (M - 2 * c0.bw) (m.wh - 2 * c0.bw) false
      = { c0 with x := m.wx, y := m.wy, w := M - 2 * c0.bw, h := m.wh - 2 * c0.bw } :=
    resize_noclamp bh sw sh m c0 m.wx m.wy _ _ (hfl c0 (List.mem_cons_self c0 _))
      (by omega) (by omega) (by omega) (by omega) (by omega) (by omega) (by omega) (by omega)
  simp only [tileTiled, List.length_cons, List.isEmpty_cons, Bool.false_eq_true, if_false,
    Nat.add_sub_cancel]
  rw [if_neg (by omega : ¬ (rest.length + 1 + 1 = 1))]
  rw [hres]
  have hxeq : (if ({ c0 with x := m.wx, y := m.wy, w := M - 2 * c0.bw, h := m.wh - 2 * c0.bw } : Client).x + ({ c0 with x := m.wx, y := m.wy, w := M - 2 * c0.bw, h := m.wh - 2 * c0.bw } : Client).w < m.wx + M then ({ c0 with x := m.wx, y := m.wy, w := M - 2 * c0.bw, h := m.wh - 2 * c0.bw } : Client).x + ({ c0 with x := m.wx, y := m.wy, w := M - 2 * c0.bw, h := m.wh - 2 * c0.bw } : Client).w + 2 * ({ c0 with x := m.wx, y := m.wy, w := M - 2 * c0.bw, h := m.wh - 2 * c0.bw } : Client).bw else m.wx + M) = m.wx + M := by
    show (if m.wx + (M - 2 * c0.bw) < m.wx + M then m.wx + (M - 2 * c0.bw) + 2 * c0.bw else m.wx + M) = m.wx + M
    split_ifs <;> omega
  rw [hxeq]
  have hweq : (if ({ c0 with x := m.wx, y := m.wy, w := M - 2 * c0.bw, h := m.wh - 2 * c0.bw } : Client).x + ({ c0 with x := m.wx, y := m.wy, w := M - 2 * c0.bw, h := m.wh - 2 * c0.bw } : Client).w < m.wx + M then m.wx + m.ww - (m.wx + M) else m.ww - M) = m.ww - M := by
    show (if m.wx + (M - 2 * c0.bw) < m.wx + M then m.wx + m.ww - (m.wx + M) else m.ww - M) = m.ww - M
    split_ifs <;> omega
  rw [hweq]
  rw [htd, htm]
  have hcoll : ¬ (m.wh / ((rest.length + 1 : ℕ) : ℤ) < bh) := by
    rw [htd] at hr0h
    omega
  rw [if_neg hcoll, if_neg hcoll]
  have hspec := tileStack_spec bh sw sh m (rest.length + 1) (m.wx + M) (m.ww - M)
    (m.wh / ((rest.length + 1 : ℕ) : ℤ)) (m.wh % ((rest.length + 1 : ℕ) : ℤ))
    hbh (by omega) (by omega) hgy hgh (Int.ediv_add_emod _ _)
    (Int.emod_nonneg _ (by omega)) (Int.emod_lt_of_pos _ (by omega))
    (Int.ediv_nonneg (by omega) (by omega))
    (r0 :: rest) 0 m.wy (by simp) (by simp)
    (by
      simp only [Nat.cast_zero, zero_mul, add_zero]
      rw [min_eq_right (Int.emod_nonneg _ (by omega))]
      ring)
    (by
      intro c hc
      obtain ⟨hb, hth, htw⟩ := hst c hc
      simp only [List.length_cons] at hth
      rw [htd] at hth
      exact ⟨hfl c (List.mem_cons_of_mem c0 hc), hb, hth, htw⟩)
  rw [show m.wh % ((rest.length + 1 : ℕ) : ℤ) - ((0 : ℕ) : ℤ) = m.wh % ((rest.length + 1 : ℕ) : ℤ) by push_cast; ring] at hspec
  refine ⟨_, rfl, hspec.1, ?_⟩
  rw [hspec.2]
  ring

/-- C2 (amended): with at least two tiled clients, hints not applied,
a monitor whose window area sits inside its screen area, and every
computed dimension clear of the minimum-size clamps of
`applysizehints` (master width `mw - 2 bw`, master height `wh - 2 bw`,
per-row base height `⌊wh/(n-1)⌋ - 2 bw` and stack column width
`ww - mw - 2 bw` all at least the bar height), the master width plus
its borders and any stack row's width plus its borders sum to `ww`,
and the stack rows' heights plus borders sum to `wh` exactly. -/
theorem claim2_amended (bh sw sh : ℤ) (m : MonG) (mfact : ℚ) (clients : List Client)
    (c0 r0 : Client) (rest : List Client)
    (htl : nexttiledList clients = c0 :: r0 :: rest)
    (hgx : m.wx = m.mx) (hgw : m.ww = m.mw)
    (hgy : m.my ≤ m.wy) (hgh : m.wy + m.wh ≤ m.my + m.mh)
    (hbh : 1 ≤ bh)
    (hMww : cInt (mfact * (m.ww : ℚ)) ≤ m.ww)
    (hm0 : 0 ≤ c0.bw)
    (hm1 : bh ≤ cInt (mfact * (m.ww : ℚ)) - 2 * c0.bw)
    (hm2 : bh ≤ m.wh - 2 * c0.bw)
    (hst : ∀ c ∈ r0 :: rest, 0 ≤ c.bw ∧
        bh ≤ Int.tdiv m.wh (((r0 :: rest).length : ℕ) : ℤ) - 2 * c.bw ∧
        bh ≤ m.ww - cInt (mfact * (m.ww : ℚ)) - 2 * c.bw) :
    ∃ c1 outRest,
      tile false bh sw sh m mfact clients = c1 :: outRest ∧
      (∀ r ∈ outRest, (c1.w + 2 * c1.bw) + (r.w + 2 * r.bw) = m.ww) ∧
      (outRest.map (fun r => r.h + 2 * r.bw)).sum = m.wh := by
  have hfl : ∀ c ∈ c0 :: r0 :: rest, c.isfloating = false := by
    intro c hc
    have hmem : c ∈ nexttiledList clients := htl ▸ hc
    have h2 := List.of_mem_filter hmem
    simpa using h2
  have heq : tile false bh sw sh m mfact clients
      = tileTiled false bh sw sh m (cInt (mfact * (m.ww : ℚ))) c0 (r0 :: rest) := by
    unfold tile
    rw [htl]
  obtain ⟨outRest, hout, hw, hs⟩ := tileTiled_spec bh sw sh m (cInt (mfact * (m.ww : ℚ)))
    c0 r0 rest hgx hgw hgy hgh hbh hfl hMww hm0 hm1 hm2 hst
  refine ⟨_, outRest, heq.trans hout, ?_, hs⟩
  intro r hr
  have hrw := hw r hr
  show (cInt (mfact * (m.ww : ℚ)) - 2 * c0.bw + 2 * c0.bw) + (r.w + 2 * r.bw) = m.ww
  rw [hrw.1]
  ring

/-- C2 (counterexample): three tiled clients with border 1 on a
monitor with `wh = 28` and `bh = 14`.  The claim's hypothesis holds —
the per-row base height `⌊28/2⌋ = 14` is not below the bar height —
but each row height `14 - 2·1 = 12` is re-clamped to `bh = 14` by
`applysizehints`, so the stack rows' heights plus borders sum to 32,
not `wh = 28`. -/
theorem claim2_counterexample :
    Int.tdiv (28 : ℤ) 2 = 14 ∧
    (((tile false 14 1000 1000 ⟨0, 0, 1000, 28, 0, 0, 1000, 28⟩ (1 / 2)
        [{ client0 with w := 300, h := 200, bw := 1 },
         { client0 with w := 300, h := 200, bw := 1 },
         { client0 with w := 300, h := 200, bw := 1 }]).drop 1).map
        (fun r => r.h + 2 * r.bw)).sum = 32 ∧ (32 : ℤ) ≠ 28 := by
  have key : tile false 14 1000 1000 ⟨0, 0, 1000, 28, 0, 0, 1000, 28⟩ (1 / 2)
        [{ client0 with w := 300, h := 200, bw := 1 },
         { client0 with w := 300, h := 200, bw := 1 },
         { client0 with w := 300, h := 200, bw := 1 }]
      = tileTiled false 14 1000 1000 ⟨0, 0, 1000, 28, 0, 0, 1000, 28⟩
          (cInt (1 / 2 * ((1000 : ℤ) : ℚ)))
          { client0 with w := 300, h := 200, bw := 1 }
          [{ client0 with w := 300, h := 200, bw := 1 },
           { client0 with w := 300, h := 200, bw := 1 }] := rfl
  have hmw : cInt (1 / 2 * ((1000 : ℤ) : ℚ)) = 500 := by
    have h1 : (1 / 2 : ℚ) * ((1000 : ℤ) : ℚ) = ((500 : ℤ) : ℚ) := by push_cast; norm_num
    unfold cInt
    rw [h1, if_pos (by positivity), Int.floor_intCast]
  refine ⟨by decide, ?_, by decide⟩
  rw [key, hmw]
  decide

/-- C2 (witness): the amended theorem at the spec's three-window
1920x1080 scenario (border 1, `bh = 14`, `mfact = 0.55`). -/
theorem claim2_witness :
    ∃ c1 outRest,
      tile false 14 1920 1080 ⟨0, 0, 1920, 1080, 0, 14, 1920, 1066⟩ (11 / 20)
        [{ client0 with w := 400, h := 250, bw := 1 },
         { client0 with w := 300, h := 200, bw := 1 },
         { client0 with w := 500, h := 300, bw := 1 }] = c1 :: outRest ∧
      (∀ r ∈ outRest, (c1.w + 2 * c1.bw) + (r.w + 2 * r.bw) = 1920) ∧
      (outRest.map (fun r => r.h + 2 * r.bw)).sum = 1066 := by
  have hmw : cInt (11 / 20 * ((1920 : ℤ) : ℚ)) = 1056 := by
    have h1 : (11 / 20 : ℚ) * ((1920 : ℤ) : ℚ) = ((1056 : ℤ) : ℚ) := by push_cast; norm_num
    unfold cInt
    rw [h1, if_pos (by positivity), Int.floor_intCast]
  exact claim2_amended 14 1920 1080 ⟨0, 0, 1920, 1080, 0, 14, 1920, 1066⟩ (11 / 20)
    [{ client0 with w := 400, h := 250, bw := 1 },
     { client0 with w := 300, h := 200, bw := 1 },
     { client0 with w := 500, h := 300, bw := 1 }]
    { client0 with w := 400, h := 250, bw := 1 }
    { client0 with w := 300, h := 200, bw := 1 }
    [{ client0 with w := 500, h := 300, bw := 1 }]
    rfl rfl rfl (by decide) (by decide) (by decide)
    (by rw [hmw]; decide) (by decide) (by rw [hmw]; decide) (by decide)
    (by
      intro c hc
      rw [hmw]
      rcases List.mem_cons.mp hc with h | h
      · subst h
        exact ⟨by decide, by decide, by decide⟩
      · rcases List.mem_cons.mp h with h2 | h2
        · subst h2
          exact ⟨by decide, by decide, by decide⟩
        · simp at h2)

/-- C4 (counterexample): a non-floating managed client whose
`WM_NORMAL_HINTS` are re-read with min size = max size = (100,100)
becomes `isfixed` while staying non-floating: the `PropertyNotify`
path only calls `updatesizehints`, which never sets `isfloating`. -/
theorem claim4_counterexample :
    (propertynotifyNormalHints client0
        ⟨false, true, true, false, false, 0, 0, 100, 100, 100, 100, 0, 0, 0, 0, 0, 0⟩).isfixed
      = true ∧
    (propertynotifyNormalHints client0
        ⟨false, true, true, false, false, 0, 0, 100, 100, 100, 100, 0, 0, 0, 0, 0, 0⟩).isfloating
      = false := by
  decide

/-- C4 (amended): `fixed ⟹ floating` is established by `manage`'s
floating-promotion step and preserved by `togglefloating`; it is not
preserved by a `WM_NORMAL_HINTS` `PropertyNotify` re-read. -/
theorem claim4_amended (c : Client) (t rh : Bool) (bh sw sh : ℤ) (m : MonG)
    (hfix : c.isfixed = true) :
    (manageFloatStep c t).isfloating = true ∧
    (togglefloatingClient rh bh sw sh m c).isfloating = true := by
  constructor
  · unfold manageFloatStep
    cases hfl : c.isfloating <;> simp [hfl, hfix]
  · unfold togglefloatingClient
    simp [hfix, resize]

/-- C4 (witness): the amended theorem at a concrete fixed client. -/
theorem claim4_witness :
    (manageFloatStep { client0 with isfixed := true } false).isfloating = true ∧
    (togglefloatingClient false 14 1920 1080 ⟨0, 0, 1920, 1080, 0, 14, 1920, 1066⟩
        { client0 with isfixed := true }).isfloating = true :=
  claim4_amended { client0 with isfixed := true } false false 14 1920 1080
    ⟨0, 0, 1920, 1080, 0, 14, 1920, 1066⟩ rfl

/-- C5: entering fullscreen makes the client floating with zero border
and the monitor's screen rectangle as geometry; entering and then
immediately leaving fullscreen restores `x`, `y`, `w`, `h`, `bw` and
the floating flag bit-exactly. -/
theorem claim5_fullscreen_roundtrip (c : Client) (m : MonG) :
    ((clientmessageFullscreen c m).isfloating = true ∧
     (clientmessageFullscreen c m).bw = 0 ∧
     (clientmessageFullscreen c m).x = m.mx ∧
     (clientmessageFullscreen c m).y = m.my ∧
     (clientmessageFullscreen c m).w = m.mw ∧
     (clientmessageFullscreen c m).h = m.mh) ∧
    ((clientmessageUnfullscreen (clientmessageFullscreen c m)).x = c.x ∧
     (clientmessageUnfullscreen (clientmessageFullscreen c m)).y = c.y ∧
     (clientmessageUnfullscreen (clientmessageFullscreen c m)).w = c.w ∧
     (clientmessageUnfullscreen (clientmessageFullscreen c m)).h = c.h ∧
     (clientmessageUnfullscreen (clientmessageFullscreen c m)).bw = c.bw ∧
     (clientmessageUnfullscreen (clientmessageFullscreen c m)).isfloating = c.isfloating) := by
  simp [clientmessageFullscreen, clientmessageUnfullscreen, resizeclient]

/-- C6 (counterexample): under the floating layout (no arranger) a
delta that would keep `mfact` inside [0.1, 0.9] is still ignored —
`setmfact` requires `SELVIEW( selmon ).lt->arrange`, which the claim
does not mention. -/
theorem claim6_counterexample :
    setmfact false (1 / 2) (1 / 10) = 1 / 2 ∧
    (1 / 10 : ℚ) ≤ 1 / 2 + 1 / 10 ∧ (1 / 2 : ℚ) + 1 / 10 ≤ 9 / 10 ∧
    (1 / 2 : ℚ) + 1 / 10 ≠ 1 / 2 := by
  refine ⟨by simp [setmfact], by norm_num, by norm_num, by norm_num⟩

/-- C6 (amended): `mfact` stays in [0.1, 0.9]; when the current layout
has an arranger, a delta keeping `old + delta` in [0.1, 0.9] sets
`mfact := old + delta`, and a delta leaving that range changes
nothing; `createmon` initialises every view's `mfact` to the
configured default. -/
theorem claim6_amended (a : Bool) (mf d : ℚ) (h1 : 1 / 10 ≤ mf) (h2 : mf ≤ 9 / 10) :
    (1 / 10 ≤ setmfact a mf d ∧ setmfact a mf d ≤ 9 / 10) ∧
    (a = true → 1 / 10 ≤ mf + d → mf + d ≤ 9 / 10 → setmfact a mf d = mf + d) ∧
    (¬ (1 / 10 ≤ mf + d ∧ mf + d ≤ 9 / 10) → setmfact a mf d = mf) ∧
    (∀ q ∈ createmonMfacts mf, 1 / 10 ≤ q ∧ q ≤ 9 / 10) := by
  refine ⟨?_, ?_, ?_, ?_⟩
  · simp only [setmfact]
    split_ifs with hc hf
    · exact hf
    · exact ⟨h1, h2⟩
    · exact ⟨h1, h2⟩
  · intro ha hl hr
    have hcond : ((-1 < d ∧ d < 1) ∧ a = true) := ⟨⟨by linarith, by linarith⟩, ha⟩
    have hf : (1 / 10 ≤ d + mf ∧ d + mf ≤ 9 / 10) := ⟨by linarith, by linarith⟩
    simp only [setmfact, if_pos hcond, if_pos hf]
    ring
  · intro hbad
    simp only [setmfact]
    split_ifs with hc hf
    · exact absurd ⟨by linarith [hf.1], by linarith [hf.2]⟩ hbad
    · rfl
    · rfl
  · intro q hq
    have : q = mf := List.eq_of_mem_replicate hq
    exact this ▸ ⟨h1, h2⟩

/-- C6 (witness): the amended theorem applied with `mfact = 1/2` and a
valid delta `1/5` under a layout with an arranger. -/
theorem claim6_witness : setmfact true (1 / 2) (1 / 5) = 1 / 2 + 1 / 5 :=
  (claim6_amended true (1 / 2) (1 / 5) (by norm_num) (by norm_num)).2.1 rfl
    (by norm_num) (by norm_num)

/-- C7 (counterexample): with `mina = maxa = 2` (a client accepting
aspect ratios between 1:2 and 2:1) and a square 100x100 proposal, the
aspect step changes nothing, and the claimed bound `mina ≤ h/w` fails:
`2 ≤ 1` is false.  `mina` bounds `h/w` from above in the code, not
from below. -/
theorem claim7_counterexample :
    aspectStep 2 2 100 100 = (100, 100) ∧
    ¬ (2 ≤ ((aspectStep 2 2 100 100).2 : ℚ) / ((aspectStep 2 2 100 100).1 : ℚ)) := by
  have key : aspectStep 2 2 100 100 = (100, 100) := by
    unfold aspectStep
    rw [if_pos (by norm_num), if_neg (by norm_num), if_neg (by norm_num)]
  refine ⟨key, ?_⟩
  rw [key]
  norm_num

/-- C7 (amended): for positive aspect limits and positive proposed
dimensions, the aspect step either leaves the pair unchanged — in
which case `w/h ≤ maxa` and `h/w ≤ mina` already hold — or adjusts
exactly one dimension to the nearest integer of the corresponding
bound: the width to `h·maxa` (within 1/2) or the height to `w·mina`
(within 1/2). -/
theorem claim7_amended (mina maxa : ℚ) (w h : ℤ) (hm : 0 < mina) (hM : 0 < maxa)
    (hw : 0 < w) (hh : 0 < h) :
    (aspectStep mina maxa w h = (w, h) ∧
       (w : ℚ) / (h : ℚ) ≤ maxa ∧ (h : ℚ) / (w : ℚ) ≤ mina) ∨
    ((aspectStep mina maxa w h).2 = h ∧
       ((aspectStep mina maxa w h).1 : ℚ) ≤ (h : ℚ) * maxa + 1 / 2 ∧
       (h : ℚ) * maxa - 1 / 2 < ((aspectStep mina maxa w h).1 : ℚ)) ∨
    ((aspectStep mina maxa w h).1 = w ∧
       ((aspectStep mina maxa w h).2 : ℚ) ≤ (w : ℚ) * mina + 1 / 2 ∧
       (w : ℚ) * mina - 1 / 2 < ((aspectStep mina maxa w h).2 : ℚ)) := by
  have hq : (0 : ℚ) < h := by exact_mod_cast hh
  have hwq : (0 : ℚ) < w := by exact_mod_cast hw
  unfold aspectStep
  rw [if_pos ⟨hm, hM⟩]
  by_cases h1 : maxa < (w : ℚ) / (h : ℚ)
  · rw [if_pos h1]
    refine Or.inr (Or.inl ⟨rfl, ?_, ?_⟩)
    · have hpos : (0 : ℚ) ≤ (h : ℚ) * maxa + 1 / 2 := by positivity
      simp only [cInt, if_pos hpos]
      exact Int.floor_le _
    · have hpos : (0 : ℚ) ≤ (h : ℚ) * maxa + 1 / 2 := by positivity
      simp only [cInt, if_pos hpos]
      have := Int.sub_one_lt_floor ((h : ℚ) * maxa + 1 / 2)
      linarith
  · rw [if_neg h1]
    by_cases h2 : mina < (h : ℚ) / (w : ℚ)
    · rw [if_pos h2]
      refine Or.inr (Or.inr ⟨rfl, ?_, ?_⟩)
      · have hpos : (0 : ℚ) ≤ (w : ℚ) * mina + 1 / 2 := by positivity
        simp only [cInt, if_pos hpos]
        exact Int.floor_le _
      · have hpos : (0 : ℚ) ≤ (w : ℚ) * mina + 1 / 2 := by positivity
        simp only [cInt, if_pos hpos]
        have := Int.sub_one_lt_floor ((w : ℚ) * mina + 1 / 2)
        linarith
    · rw [if_neg h2]
      exact Or.inl ⟨rfl, le_of_not_lt h1, le_of_not_lt h2⟩

/-- C7 (witness): the amended theorem at `mina = maxa = 1`, proposal
2x1 (the width is clamped to the nearest integer of `h·maxa`). -/
theorem claim7_witness :
    (aspectStep 1 1 2 1 = (2, 1) ∧
       (2 : ℚ) / (1 : ℚ) ≤ 1 ∧ (1 : ℚ) / (2 : ℚ) ≤ 1) ∨
    ((aspectStep 1 1 2 1).2 = 1 ∧
       ((aspectStep 1 1 2 1).1 : ℚ) ≤ (1 : ℚ) * 1 + 1 / 2 ∧
       (1 : ℚ) * 1 - 1 / 2 < ((aspectStep 1 1 2 1).1 : ℚ)) ∨
    ((aspectStep 1 1 2 1).1 = 2 ∧
       ((aspectStep 1 1 2 1).2 : ℚ) ≤ (2 : ℚ) * 1 + 1 / 2 ∧
       (2 : ℚ) * 1 - 1 / 2 < ((aspectStep 1 1 2 1).2 : ℚ)) :=
  claim7_amended 1 1 2 1 (by norm_num) (by norm_num) (by norm_num) (by norm_num)

/-- C8 (code bug): `drawbar` computes `occ = (NULL == clients)`, so
for a tag that does not get the filled square the empty square is
drawn exactly when the view has NO clients — the opposite of the claim
(and of dwm.1, which says the empty square marks views applied to one
or more windows): a view holding client 5 gets no square, the empty
view gets the empty square. -/
theorem claim8_squares :
    tagSquare false none false [5] = SquareKind.noSq ∧
    tagSquare false none false [] = SquareKind.emptySq := by
  decide

/-- C9 (code bug): `-v` is handled by `die`, which prints with
`vfprintf(stderr, ...)` and exits with `EXIT_FAILURE` (status 1) — not
standard output and status 0 as the claim (and dwm.1's "standard
output") state.  Other argument patterns do print usage to stderr and
exit non-zero, and a bare invocation proceeds. -/
theorem claim9_version_flag :
    mainArgCheck [vstr, vstr] = some (DieMsg.versionMsg, OutChan.stderrC, 1) ∧
    mainArgCheck [vstr, vstr, vstr] = some (DieMsg.usageMsg, OutChan.stderrC, 1) ∧
    mainArgCheck [vstr] = none := by
  refine ⟨rfl, rfl, rfl⟩

/-- C10: a window whose initial size equals the monitor's full screen
size is managed floating, at the screen origin, with zero border
width; any other window gets the configured border width. -/
theorem claim10_manage (m : MonG) (mby bh borderpx wax way waw wah wabw : ℤ) :
    (waw = m.mw ∧ wah = m.mh →
       (manageGeom m mby bh borderpx wax way waw wah wabw).isfloating = true ∧
       (manageGeom m mby bh borderpx wax way waw wah wabw).bw = 0 ∧
       (manageGeom m mby bh borderpx wax way waw wah wabw).x = m.mx ∧
       (manageGeom m mby bh borderpx wax way waw wah wabw).y = m.my) ∧
    (¬ (waw = m.mw ∧ wah = m.mh) →
       (manageGeom m mby bh borderpx wax way waw wah wabw).bw = borderpx) := by
  constructor
  · rintro ⟨hw, hh⟩
    unfold manageGeom
    rw [if_pos ⟨hw, hh⟩]
    exact ⟨rfl, rfl, rfl, rfl⟩
  · intro hne
    unfold manageGeom
    rw [if_neg hne]

/-- C10 (witness): the theorem at a concrete 800x600 monitor, once for
a full-screen-sized window and once for a smaller one. -/
theorem claim10_witness :
    ((manageGeom ⟨0, 0, 800, 600, 0, 14, 800, 586⟩ 0 14 1 0 0 800 600 2).isfloating = true ∧
     (manageGeom ⟨0, 0, 800, 600, 0, 14, 800, 586⟩ 0 14 1 0 0 800 600 2).bw = 0 ∧
     (manageGeom ⟨0, 0, 800, 600, 0, 14, 800, 586⟩ 0 14 1 0 0 800 600 2).x = 0 ∧
     (manageGeom ⟨0, 0, 800, 600, 0, 14, 800, 586⟩ 0 14 1 0 0 800 600 2).y = 0) ∧
    (manageGeom ⟨0, 0, 800, 600, 0, 14, 800, 586⟩ 0 14 1 10 10 300 200 2).bw = 1 :=
  ⟨(claim10_manage ⟨0, 0, 800, 600, 0, 14, 800, 586⟩ 0 14 1 0 0 800 600 2).1 ⟨rfl, rfl⟩,
   (claim10_manage ⟨0, 0, 800, 600, 0, 14, 800, 586⟩ 0 14 1 10 10 300 200 2).2 (by decide)⟩


/-! ### Lemmas for the monitor/view state machine -/

/-- `getD` after `set` at the same, in-range index. -/
theorem getD_set_self {α : Type} (a d : α) :
    ∀ (l : List α) (i : ℕ), i < l.length → (l.set i a).getD i d = a := by
  intro l
  induction l with
  | nil => intro i h; simp at h
  | cons b t ih =>
    intro i h
    cases i with
    | zero => rfl
    | succ j =>
      simp only [List.set_cons_succ, List.getD_cons_succ]
      exact ih j (by simpa using h)

/-- `getD` after `set` at a different index. -/
theorem getD_set_ne {α : Type} (a d : α) :
    ∀ (l : List α) (i j : ℕ), j ≠ i → (l.set i a).getD j d = l.getD j d := by
  intro l
  induction l with
  | nil => intro i j _; rfl
  | cons b t ih =>
    intro i j hne
    cases i with
    | zero =>
      cases j with
      | zero => exact absurd rfl hne
      | succ j2 => simp only [List.set_cons_zero, List.getD_cons_succ]
    | succ i2 =>
      cases j with
      | zero => simp only [List.set_cons_succ, List.getD_cons_zero]
      | succ j2 =>
        simp only [List.set_cons_succ, List.getD_cons_succ]
        exact ih i2 j2 (fun h => hne (by rw [h]))

/-- `modifyView` leaves the selected-monitor index unchanged. -/
theorem modifyView_selmon (s : WM) (i j : ℕ) (f : ViewS → ViewS) :
    (modifyView s i j f).selmon = s.selmon := rfl

/-- `modifyView` leaves the client registry unchanged. -/
theorem modifyView_cl (s : WM) (i j : ℕ) (f : ViewS → ViewS) :
    (modifyView s i j f).cl = s.cl := rfl

/-- `modifyView` leaves the monitor count unchanged. -/
theorem modifyView_len (s : WM) (i j : ℕ) (f : ViewS → ViewS) :
    (modifyView s i j f).mons.length = s.mons.length := by
  unfold modifyView
  exact List.length_set _ _ _

/-- `setcl` leaves the monitor list unchanged. -/
theorem getMon_setcl (s : WM) (c : CId) (r : CRec) (i : ℕ) :
    getMon (setcl s c r) i = getMon s i := rfl

/-- `getMon` ignores the selected-monitor field. -/
theorem getMon_withSelmon (s : WM) (v : ℕ) (i : ℕ) :
    getMon { s with selmon := v } i = getMon s i := rfl

/-- Other monitors are untouched by `modifyView`. -/
theorem getMon_modifyView_ne (s : WM) (i j i' : ℕ) (f : ViewS → ViewS) (h : i' ≠ i) :
    getMon (modifyView s i j f) i' = getMon s i' := by
  unfold getMon modifyView
  exact getD_set_ne _ _ _ i i' h

/-- The touched monitor after `modifyView`. -/
theorem getMon_modifyView_self (s : WM) (i j : ℕ) (f : ViewS → ViewS)
    (hi : i < s.mons.length) :
    getMon (modifyView s i j f) i
      = { getMon s i with
          views := (getMon s i).views.set j (f (getViewM (getMon s i) j)) } := by
  unfold getMon modifyView
  exact getD_set_self _ _ _ i hi

/-- `List.set` beyond the length is the identity. -/
theorem set_oob {α : Type} (a : α) :
    ∀ (l : List α) (i : ℕ), l.length ≤ i → l.set i a = l := by
  intro l
  induction l with
  | nil => intro i _; rfl
  | cons b t ih =>
    intro i h
    cases i with
    | zero => simp at h
    | succ j =>
      simp only [List.set_cons_succ]
      rw [ih j (by simpa using h)]

/-- `modifyView` at an out-of-range monitor index is the identity. -/
theorem modifyView_oob (s : WM) (i j : ℕ) (f : ViewS → ViewS)
    (h : s.mons.length ≤ i) : modifyView s i j f = s := by
  simp only [modifyView]
  rw [set_oob _ _ _ h]

/-- `modifyView` never changes any monitor's selected-view index. -/
theorem selview_modifyView (s : WM) (i j : ℕ) (f : ViewS → ViewS) (i' : ℕ) :
    (getMon (modifyView s i j f) i').selview = (getMon s i').selview := by
  by_cases h : i' = i
  · subst h
    by_cases hi : i' < s.mons.length
    · rw [getMon_modifyView_self s i' j f hi]
    · rw [modifyView_oob s i' j f (by omega)]
  · rw [getMon_modifyView_ne s i j i' f h]

/-- `modifyView` never changes any monitor's view count. -/
theorem viewslen_modifyView (s : WM) (i j : ℕ) (f : ViewS → ViewS) (i' : ℕ) :
    (getMon (modifyView s i j f) i').views.length = (getMon s i').views.length := by
  by_cases h : i' = i
  · subst h
    by_cases hi : i' < s.mons.length
    · rw [getMon_modifyView_self s i' j f hi]
      exact List.length_set _ _ _
    · rw [modifyView_oob s i' j f (by omega)]
  · rw [getMon_modifyView_ne s i j i' f h]

/-- The touched view after `modifyView`. -/
theorem getViewM_modifyView_self (s : WM) (i j : ℕ) (f : ViewS → ViewS)
    (hi : i < s.mons.length) (hj : j < (getMon s i).views.length) :
    getViewM (getMon (modifyView s i j f) i) j = f (getViewM (getMon s i) j) := by
  rw [getMon_modifyView_self s i j f hi]
  unfold getViewM
  exact getD_set_self _ _ _ j hj

/-- Views other than the touched one are unchanged by `modifyView`. -/
theorem getViewM_modifyView_ne_j (s : WM) (i j j' : ℕ) (f : ViewS → ViewS)
    (hj : j' ≠ j) :
    getViewM (getMon (modifyView s i j f) i) j' = getViewM (getMon s i) j' := by
  by_cases hi : i < s.mons.length
  · rw [getMon_modifyView_self s i j f hi]
    unfold getViewM
    exact getD_set_ne _ _ _ j j' hj
  · rw [modifyView_oob s i j f (by omega)]

/-- Views of other monitors are unchanged by `modifyView`. -/
theorem getViewM_modifyView_ne_i (s : WM) (i j i' j' : ℕ) (f : ViewS → ViewS)
    (hi : i' ≠ i) :
    getViewM (getMon (modifyView s i j f) i') j' = getViewM (getMon s i') j' := by
  rw [getMon_modifyView_ne s i j i' f hi]

/-- `detachstack` preserves `viewInv` on the view it touches. -/
theorem dstackView_viewInv (v : ViewS) (c : CId) (h : viewInv v) :
    viewInv (dstackView v c) := by
  unfold viewInv at h ⊢
  by_cases hc : v.sel = some c
  · right
    show (if v.sel = some c then (v.stack.erase c).head? else v.sel)
        = (v.stack.erase c).head?
    rw [if_pos hc]
  · rcases h with h | h
    · left
      show (if v.sel = some c then (v.stack.erase c).head? else v.sel) = none
      rw [if_neg hc]
      exact h
    · right
      show (if v.sel = some c then (v.stack.erase c).head? else v.sel)
          = (v.stack.erase c).head?
      rw [if_neg hc]
      cases hst : v.stack with
      | nil =>
        rw [hst] at h
        simp only [List.head?_nil] at h
        simpa using h
      | cons a t =>
        rw [hst, List.head?_cons] at h
        have hac : a ≠ c := fun hac => hc (by rw [h, hac])
        rw [List.erase_cons, if_neg (by simpa using hac), List.head?_cons]
        exact h

/-- Record-update projections used when reducing `focusClient`. -/
theorem withSelmon_cl (s : WM) (v : ℕ) : ({ s with selmon := v } : WM).cl = s.cl := rfl

/-- Record-update projection for `selmon`. -/
theorem withSelmon_selmon (s : WM) (v : ℕ) :
    ({ s with selmon := v } : WM).selmon = v := rfl

/-- Record-update projection for `mons`. -/
theorem withSelmon_mons (s : WM) (v : ℕ) :
    ({ s with selmon := v } : WM).mons = s.mons := rfl

/-- The non-null branch of `focus`, computed: when the focused client
lies in its monitor's selected view, `focusClient` switches `selmon`
to the client's monitor, moves the client to the head of that view's
focus stack and makes it the view's `sel`; every other monitor and
every other field is untouched. -/
theorem focusClient_spec (s : WM) (c : CId)
    (hic : (s.cl c).mon < s.mons.length)
    (hjc : (s.cl c).view = (getMon s (s.cl c).mon).selview)
    (hjlt : (getMon s (s.cl c).mon).selview < (getMon s (s.cl c).mon).views.length) :
    (focusClient s c).selmon = (s.cl c).mon ∧
    (focusClient s c).cl = s.cl ∧
    (focusClient s c).mons.length = s.mons.length ∧
    (∀ k, k ≠ (s.cl c).mon → getMon (focusClient s c) k = getMon s k) ∧
    (∀ k, (getMon (focusClient s c) k).selview = (getMon s k).selview) ∧
    (∀ k, (getMon (focusClient s c) k).views.length = (getMon s k).views.length) ∧
    (selviewAt (focusClient s c) ((s.cl c).mon)).sel = some c ∧
    (selviewAt (focusClient s c) ((s.cl c).mon)).stack
      = c :: (selviewAt s ((s.cl c).mon)).stack.erase c := by
  have hs1 : (if (s.cl c).mon ≠ s.selmon then { s with selmon := (s.cl c).mon } else s)
      = { s with selmon := (s.cl c).mon } := by
    split_ifs with hne
    · rfl
    · push_neg at hne
      rw [hne]
  have hfc : focusClient s c
      = modifyView (modifyView (modifyView { s with selmon := (s.cl c).mon }
          ((s.cl c).mon) ((s.cl c).view) (fun v => dstackView v c))
          ((s.cl c).mon) ((s.cl c).view) (fun v => { v with stack := c :: v.stack }))
          ((s.cl c).mon) ((s.cl c).view) (fun v => { v with sel := some c }) := by
    simp only [focusClient]
    rw [hs1]
    simp only [detachstackOp, attachstackOp, setsel, modifyView_cl, modifyView_selmon,
      selview_modifyView, getMon_withSelmon, withSelmon_cl, withSelmon_selmon]
    rw [← hjc]
  have hjlt2 : (s.cl c).view < (getMon s (s.cl c).mon).views.length := hjc ▸ hjlt
  refine ⟨?_, ?_, ?_, ?_, ?_, ?_, ?_, ?_⟩
  · rw [hfc]
    simp only [modifyView_selmon, withSelmon_selmon]
  · rw [hfc]
    simp only [modifyView_cl, withSelmon_cl]
  · rw [hfc]
    simp only [modifyView_len]
  · intro k hk
    rw [hfc, getMon_modifyView_ne _ _ _ _ _ hk, getMon_modifyView_ne _ _ _ _ _ hk,
      getMon_modifyView_ne _ _ _ _ _ hk, getMon_withSelmon]
  · intro k
    rw [hfc]
    simp only [selview_modifyView]
    rw [getMon_withSelmon]
  · intro k
    rw [hfc]
    simp only [viewslen_modifyView]
    rw [getMon_withSelmon]
  · rw [hfc]
    unfold selviewAt
    rw [show (getMon (modifyView (modifyView (modifyView { s with selmon := (s.cl c).mon }
          ((s.cl c).mon) ((s.cl c).view) (fun v => dstackView v c))
          ((s.cl c).mon) ((s.cl c).view) (fun v => { v with stack := c :: v.stack }))
          ((s.cl c).mon) ((s.cl c).view) (fun v => { v with sel := some c }))
          ((s.cl c).mon)).selview = (s.cl c).view by
      simp only [selview_modifyView]
      rw [getMon_withSelmon, ← hjc]]
    rw [getViewM_modifyView_self _ _ _ _ (by simpa [modifyView_len, withSelmon_mons] using hic)
      (by simpa [viewslen_modifyView, getMon_withSelmon] using hjlt2)]
  · rw [hfc]
    unfold selviewAt
    rw [show (getMon (modifyView (modifyView (modifyView { s with selmon := (s.cl c).mon }
          ((s.cl c).mon) ((s.cl c).view) (fun v => dstackView v c))
          ((s.cl c).mon) ((s.cl c).view) (fun v => { v with stack := c :: v.stack }))
          ((s.cl c).mon) ((s.cl c).view) (fun v => { v with sel := some c }))
          ((s.cl c).mon)).selview = (s.cl c).view by
      simp only [selview_modifyView]
      rw [getMon_withSelmon, ← hjc]]
    rw [getViewM_modifyView_self _ _ _ _ (by simpa [modifyView_len, withSelmon_mons] using hic)
      (by simpa [viewslen_modifyView, getMon_withSelmon] using hjlt2)]
    rw [getViewM_modifyView_self _ _ _ _ (by simpa [modifyView_len, withSelmon_mons] using hic)
      (by simpa [viewslen_modifyView, getMon_withSelmon] using hjlt2)]
    rw [getViewM_modifyView_self _ _ _ _ (by simpa [withSelmon_mons] using hic)
      (by simpa [getMon_withSelmon] using hjlt2)]
    rw [← hjc]
    rfl

/-- `focus(NULL)`, computed: it re-establishes `viewInv` on the
selected monitor's selected view, preserves `SelOK`, and touches no
other monitor. -/
theorem focusOp_none_spec (s : WM) (h : SelOK s) :
    (focusOp s none).selmon = s.selmon ∧
    (focusOp s none).cl = s.cl ∧
    (focusOp s none).mons.length = s.mons.length ∧
    (∀ k, k ≠ s.selmon → getMon (focusOp s none) k = getMon s k) ∧
    (∀ k, (getMon (focusOp s none) k).selview = (getMon s k).selview) ∧
    (∀ k, (getMon (focusOp s none) k).views.length = (getMon s k).views.length) ∧
    viewInv (selviewOf (focusOp s none)) ∧
    SelOK (focusOp s none) := by
  obtain ⟨hsm, hsv, hstk⟩ := h
  rcases hhead : (selviewOf s).stack.head? with _ | c0
  · -- empty focus stack: only `SELVIEW( selmon ).sel = NULL` happens
    have hfo : focusOp s none = setsel s none := by
      unfold focusOp
      rw [hhead]
    have hstack0 : (selviewOf s).stack = [] := List.head?_eq_none_iff.mp hhead
    have hsetsel : setsel s none
        = modifyView s s.selmon ((getMon s s.selmon).selview)
            (fun v => { v with sel := none }) := rfl
    rw [hfo, hsetsel]
    refine ⟨modifyView_selmon _ _ _ _, modifyView_cl _ _ _ _, modifyView_len _ _ _ _,
      fun k hk => getMon_modifyView_ne _ _ _ _ _ hk,
      fun k => selview_modifyView _ _ _ _ _,
      fun k => viewslen_modifyView _ _ _ _ _, ?_, ?_⟩
    · unfold selviewOf selviewAt viewInv
      rw [modifyView_selmon, selview_modifyView]
      rw [getViewM_modifyView_self _ _ _ _ hsm hsv]
      left
      rfl
    · refine ⟨?_, ?_, ?_⟩
      · rw [modifyView_selmon, modifyView_len]
        exact hsm
      · rw [modifyView_selmon, selview_modifyView, viewslen_modifyView]
        exact hsv
      · intro d hd
        unfold selviewOf selviewAt at hd
        rw [modifyView_selmon, selview_modifyView,
          getViewM_modifyView_self _ _ _ _ hsm hsv] at hd
        have hd2 : d ∈ (getViewM (getMon s s.selmon) ((getMon s s.selmon).selview)).stack := hd
        rw [show (getViewM (getMon s s.selmon) ((getMon s s.selmon).selview)).stack = []
          from hstack0] at hd2
        simp at hd2
  · -- nonempty focus stack: the head is focused
    have hfo : focusOp s none = focusClient s c0 := by
      unfold focusOp
      rw [hhead]
    have hc0mem : c0 ∈ (selviewOf s).stack := by
      cases hs : (selviewOf s).stack with
      | nil =>
        rw [hs] at hhead
        simp at hhead
      | cons a t =>
        rw [hs, List.head?_cons] at hhead
        have ha : a = c0 := by simpa using hhead
        exact ha ▸ List.mem_cons_self a t
    have hcl0 : s.cl c0 = ⟨s.selmon, (getMon s s.selmon).selview⟩ := hstk c0 hc0mem
    have hic : (s.cl c0).mon < s.mons.length := by rw [hcl0]; exact hsm
    have hjc : (s.cl c0).view = (getMon s (s.cl c0).mon).selview := by rw [hcl0]
    have hjlt : (getMon s (s.cl c0).mon).selview
        < (getMon s (s.cl c0).mon).views.length := by rw [hcl0]; exact hsv
    obtain ⟨h1, h2, h3, h4, h5, h6, h7, h8⟩ := focusClient_spec s c0 hic hjc hjlt
    have hmon0 : (s.cl c0).mon = s.selmon := by rw [hcl0]
    rw [hfo]
    refine ⟨by rw [h1, hmon0], h2, h3,
      fun k hk => h4 k (by rw [hmon0]; exact hk), h5, h6, ?_, ?_⟩
    · unfold selviewOf
      have hsel : (focusClient s c0).selmon = (s.cl c0).mon := h1
      rw [hsel]
      unfold viewInv
      right
      rw [h7, h8, List.head?_cons]
    · refine ⟨?_, ?_, ?_⟩
      · rw [h1, hmon0, h3]
        exact hsm
      · rw [h1, hmon0, h5, h6]
        exact hsv
      · intro d hd
        unfold selviewOf at hd
        rw [h1, hmon0] at hd
        rw [show selviewAt (focusClient s c0) s.selmon
            = selviewAt (focusClient s c0) ((s.cl c0).mon) by rw [hmon0]] at hd
        rw [h8] at hd
        rw [h2, h1, hmon0, h5]
        rcases List.mem_cons.mp hd with hd1 | hd2
        · subst hd1
          exact hcl0
        · have hd3 : d ∈ (selviewAt s ((s.cl c0).mon)).stack := List.mem_of_mem_erase hd2
          rw [hmon0] at hd3
          exact hstk d hd3

/-- `setcl` record projections. -/
theorem setcl_selmon (s : WM) (c : CId) (r : CRec) :
    (setcl s c r).selmon = s.selmon := rfl

/-- `setcl` keeps the monitor count. -/
theorem setcl_len (s : WM) (c : CId) (r : CRec) :
    (setcl s c r).mons.length = s.mons.length := rfl

/-- The registry after `setcl`, away from the touched client. -/
theorem setcl_cl_ne (s : WM) (c : CId) (r : CRec) (d : CId) (hd : d ≠ c) :
    (setcl s c r).cl d = s.cl d := by
  simp [setcl, hd]

/-- The registry after `setcl`, at the touched client. -/
theorem setcl_cl_self (s : WM) (c : CId) (r : CRec) :
    (setcl s c r).cl c = r := by
  simp [setcl]

/-- The `detach; detachstack; c->mon/c->view := r; attach; attachstack`
sequence shared by `sendmon` and `tag`, specified: it keeps `selmon`,
the monitor count and every monitor's selected-view index; it touches
only the source and destination monitors; and the selected monitor's
selected view still has a focus stack whose members are registered to
it (`SelOK`), so a subsequent `focus(NULL)` re-establishes `viewInv`
there. -/
theorem moveOps_spec (s : WM) (c : CId) (r : CRec) (hWF : WF s) :
    SelOK (attachstackOp (attachOp (setcl (detachstackOp (detachOp s c) c) c r) c) c) ∧
    (attachstackOp (attachOp (setcl (detachstackOp (detachOp s c) c) c r) c) c).selmon
      = s.selmon ∧
    (attachstackOp (attachOp (setcl (detachstackOp (detachOp s c) c) c r) c) c).mons.length
      = s.mons.length ∧
    (∀ k, k ≠ (s.cl c).mon → k ≠ r.mon →
      getMon (attachstackOp (attachOp (setcl (detachstackOp (detachOp s c) c) c r) c) c) k
        = getMon s k) ∧
    (∀ k, (getMon (attachstackOp (attachOp (setcl (detachstackOp (detachOp s c) c) c r) c) c) k).selview
        = (getMon s k).selview) := by
  obtain ⟨hsm, hWFr⟩ := hWF
  obtain ⟨hsv, hviews⟩ := hWFr s.selmon hsm
  have hD : detachstackOp (detachOp s c) c
      = modifyView (modifyView s ((s.cl c).mon) ((s.cl c).view)
          (fun v => { v with clients := v.clients.erase c }))
          ((s.cl c).mon) ((s.cl c).view) (fun v => dstackView v c) := by
    unfold detachOp detachstackOp
    rw [modifyView_cl]
  have hclr : (setcl (detachstackOp (detachOp s c) c) c r).cl c = r :=
    setcl_cl_self _ _ _
  have hA : attachstackOp (attachOp (setcl (detachstackOp (detachOp s c) c) c r) c) c
      = modifyView (modifyView (setcl (detachstackOp (detachOp s c) c) c r)
          r.mon r.view (fun v => { v with clients := c :: v.clients }))
          r.mon r.view (fun v => { v with stack := c :: v.stack }) := by
    unfold attachOp attachstackOp
    rw [modifyView_cl, hclr]
  have hsel5 : (attachstackOp (attachOp (setcl (detachstackOp (detachOp s c) c) c r) c) c).selmon
      = s.selmon := by
    rw [hA, hD]
    simp only [modifyView_selmon, setcl_selmon]
  have hlen5 : (attachstackOp (attachOp (setcl (detachstackOp (detachOp s c) c) c r) c) c).mons.length
      = s.mons.length := by
    rw [hA, hD]
    simp only [modifyView_len, setcl_len]
  have hsv5 : ∀ k, (getMon (attachstackOp (attachOp (setcl (detachstackOp (detachOp s c) c) c r) c) c) k).selview
      = (getMon s k).selview := by
    intro k
    rw [hA, hD]
    simp only [selview_modifyView, getMon_setcl]
  have hvl5 : ∀ k, (getMon (attachstackOp (attachOp (setcl (detachstackOp (detachOp s c) c) c r) c) c) k).views.length
      = (getMon s k).views.length := by
    intro k
    rw [hA, hD]
    simp only [viewslen_modifyView, getMon_setcl]
  have hframe5 : ∀ k, k ≠ (s.cl c).mon → k ≠ r.mon →
      getMon (attachstackOp (attachOp (setcl (detachstackOp (detachOp s c) c) c r) c) c) k
        = getMon s k := by
    intro k hk1 hk2
    rw [hA, hD, getMon_modifyView_ne _ _ _ _ _ hk2, getMon_modifyView_ne _ _ _ _ _ hk2,
      getMon_setcl, getMon_modifyView_ne _ _ _ _ _ hk1, getMon_modifyView_ne _ _ _ _ _ hk1]
  have hcl5c : (attachstackOp (attachOp (setcl (detachstackOp (detachOp s c) c) c r) c) c).cl c
      = r := by
    rw [hA]
    simp only [modifyView_cl]
    exact hclr
  have hcl5ne : ∀ d, d ≠ c →
      (attachstackOp (attachOp (setcl (detachstackOp (detachOp s c) c) c r) c) c).cl d
        = s.cl d := by
    intro d hd
    rw [hA]
    simp only [modifyView_cl]
    rw [setcl_cl_ne _ _ _ _ hd, hD]
    simp only [modifyView_cl]
  -- the stack of the selected monitor's selected view after the detach phase
  have hstack3 : ∀ d ∈ (getViewM (getMon (setcl (detachstackOp (detachOp s c) c) c r) s.selmon)
      ((getMon s s.selmon).selview)).stack,
      d ≠ c ∧ s.cl d = ⟨s.selmon, (getMon s s.selmon).selview⟩ := by
    intro d hd
    rw [getMon_setcl, hD] at hd
    by_cases him : (s.cl c).mon = s.selmon
    · by_cases hjm : (s.cl c).view = (getMon s s.selmon).selview
      · rw [← hjm, ← him] at hd
        rw [getViewM_modifyView_self _ _ _ _ (by rw [modifyView_len, him]; exact hsm)
          (by rw [viewslen_modifyView, him, hjm]; exact hsv)] at hd
        rw [getViewM_modifyView_self _ _ _ _ (by rw [him]; exact hsm)
          (by rw [him, hjm]; exact hsv)] at hd
        have hd2 : d ∈ ((getViewM (getMon s ((s.cl c).mon)) ((s.cl c).view)).stack).erase c := hd
        rw [him, hjm] at hd2
        have hnod := (hviews _ hsv).1
        have := (List.Nodup.mem_erase_iff hnod).mp hd2
        exact ⟨this.1, (hviews _ hsv).2 d this.2⟩
      · have hd2 : d ∈ (getViewM (getMon s s.selmon) ((getMon s s.selmon).selview)).stack := by
          rw [him] at hd
          rw [getViewM_modifyView_ne_j _ _ _ _ _ (fun h => hjm h.symm),
            getViewM_modifyView_ne_j _ _ _ _ _ (fun h => hjm h.symm)] at hd
          exact hd
        have hcld := (hviews _ hsv).2 d hd2
        refine ⟨?_, hcld⟩
        intro hdc
        subst hdc
        rw [hcld] at hjm
        exact hjm rfl
    · have hd2 : d ∈ (getViewM (getMon s s.selmon) ((getMon s s.selmon).selview)).stack := by
        rw [getViewM_modifyView_ne_i _ _ _ _ _ _ (fun h => him h.symm),
          getViewM_modifyView_ne_i _ _ _ _ _ _ (fun h => him h.symm)] at hd
        exact hd
      have hcld := (hviews _ hsv).2 d hd2
      refine ⟨?_, hcld⟩
      intro hdc
      subst hdc
      rw [hcld] at him
      exact him rfl
  refine ⟨⟨?_, ?_, ?_⟩, hsel5, hlen5, hframe5, hsv5⟩
  · rw [hsel5, hlen5]
    exact hsm
  · rw [hsel5, hsv5, hvl5]
    exact hsv
  · intro d hd
    rw [show (selviewOf (attachstackOp (attachOp (setcl (detachstackOp (detachOp s c) c) c r) c) c))
        = selviewAt (attachstackOp (attachOp (setcl (detachstackOp (detachOp s c) c) c r) c) c)
            s.selmon by unfold selviewOf; rw [hsel5]] at hd
    unfold selviewAt at hd
    rw [hsv5] at hd
    rw [hsel5, hsv5]
    by_cases hKrm : s.selmon = r.mon
    · by_cases hJrv : (getMon s s.selmon).selview = r.view
      · -- destination view is the selected view: c is its new stack head
        rw [hA, ← hKrm, ← hJrv] at hd
        rw [getViewM_modifyView_self _ _ _ _
            (by rw [modifyView_len, setcl_len, hD]; simp only [modifyView_len]; exact hsm)
            (by rw [viewslen_modifyView, getMon_setcl, hD]; simp only [viewslen_modifyView]; exact hsv)] at hd
        rw [getViewM_modifyView_self _ _ _ _
            (by rw [setcl_len, hD]; simp only [modifyView_len]; exact hsm)
            (by rw [getMon_setcl, hD]; simp only [viewslen_modifyView]; exact hsv)] at hd
        have hd2 : d ∈ c :: (getViewM (getMon (setcl (detachstackOp (detachOp s c) c) c r)
            s.selmon) ((getMon s s.selmon).selview)).stack := hd
        rcases List.mem_cons.mp hd2 with hdc | hdm
        · subst hdc
          rw [hcl5c, hJrv, hKrm]
        · obtain ⟨hdne, hcld⟩ := hstack3 d hdm
          rw [hcl5ne d hdne]
          exact hcld
      · -- same monitor, different view: the selected view only lost c
        have hd2 : d ∈ (getViewM (getMon (setcl (detachstackOp (detachOp s c) c) c r)
            s.selmon) ((getMon s s.selmon).selview)).stack := by
          rw [hA, ← hKrm] at hd
          rw [getViewM_modifyView_ne_j _ _ _ _ _ hJrv,
            getViewM_modifyView_ne_j _ _ _ _ _ hJrv] at hd
          exact hd
        obtain ⟨hdne, hcld⟩ := hstack3 d hd2
        rw [hcl5ne d hdne]
        exact hcld
    · -- destination is another monitor: the selected view only lost c
      have hd2 : d ∈ (getViewM (getMon (setcl (detachstackOp (detachOp s c) c) c r)
          s.selmon) ((getMon s s.selmon).selview)).stack := by
        rw [hA] at hd
        rw [getViewM_modifyView_ne_i _ _ _ _ _ _ hKrm,
          getViewM_modifyView_ne_i _ _ _ _ _ _ hKrm] at hd
        exact hd
      obtain ⟨hdne, hcld⟩ := hstack3 d hd2
      rw [hcl5ne d hdne]
      exact hcld

/-- `WF` restricted to the selected monitor gives `SelOK`. -/
theorem WF_SelOK (s : WM) (h : WF s) : SelOK s := by
  obtain ⟨hsm, hrest⟩ := h
  obtain ⟨hsv, hviews⟩ := hrest s.selmon hsm
  exact ⟨hsm, hsv, (hviews _ hsv).2⟩

/-- Focusing a client of the selected view of its monitor preserves
the `sel`-is-stack-head invariant on every monitor. -/
theorem focusOp_some_Inv (s : WM) (c : CId) (hInv : Inv s)
    (hic : (s.cl c).mon < s.mons.length)
    (hjc : (s.cl c).view = (getMon s (s.cl c).mon).selview)
    (hjlt : (getMon s (s.cl c).mon).selview < (getMon s (s.cl c).mon).views.length) :
    Inv (focusOp s (some c)) := by
  obtain ⟨h1, h2, h3, h4, h5, h6, h7, h8⟩ := focusClient_spec s c hic hjc hjlt
  have hfo : focusOp s (some c) = focusClient s c := rfl
  rw [hfo]
  intro k hk
  rw [h3] at hk
  by_cases hki : k = (s.cl c).mon
  · subst hki
    unfold viewInv
    right
    rw [h7, h8, List.head?_cons]
  · unfold selviewAt
    rw [h4 k hki]
    exact hInv k hk

/-- `focus(NULL)` preserves the invariant on every monitor. -/
theorem focusOp_none_Inv (s : WM) (hsok : SelOK s) (hInv : Inv s) :
    Inv (focusOp s none) := by
  obtain ⟨h1, h2, h3, h4, h5, h6, h7, h8⟩ := focusOp_none_spec s hsok
  intro k hk
  rw [h3] at hk
  by_cases hks : k = s.selmon
  · subst hks
    have hksel : s.selmon = (focusOp s none).selmon := h1.symm
    rw [hksel]
    exact h7
  · unfold selviewAt
    rw [h4 k hks]
    exact hInv k hk

/-- `tag` preserves the invariant on every monitor: the moved client
is the head of the selected view's stack, and the closing
`focus(NULL)` repairs the selected view. -/
theorem tagOp_Inv (s : WM) (ui : ℕ) (hWF : WF s) (hInv : Inv s) : Inv (tagOp s ui) := by
  rcases hsel : (selviewOf s).sel with _ | c
  · have heq : tagOp s ui = s := by
      unfold tagOp
      rw [hsel]
    rw [heq]
    exact hInv
  · obtain ⟨hsm, hWFr⟩ := hWF
    -- the selected client is registered to the selected view
    have hsel2 : (selviewAt s s.selmon).sel = some c := hsel
    have hheadc : (selviewAt s s.selmon).stack.head? = some c := by
      rcases hInv s.selmon hsm with h | h
      · rw [h] at hsel2
        exact absurd hsel2 (by simp)
      · rw [← h]
        exact hsel2
    have hcmem : c ∈ (selviewAt s s.selmon).stack := by
      rcases hst : (selviewAt s s.selmon).stack with _ | ⟨a, t⟩
      · rw [hst] at hheadc
        exact absurd hheadc (by simp)
      · rw [hst] at hheadc
        simp only [List.head?_cons, Option.some.injEq] at hheadc
        rw [← hheadc]
        exact List.mem_cons_self a t
    have hclc : s.cl c = ⟨s.selmon, (getMon s s.selmon).selview⟩ :=
      ((hWFr s.selmon hsm).2 _ (hWFr s.selmon hsm).1).2 c hcmem
    have hcm : (s.cl c).mon = s.selmon := by rw [hclc]
    have heq : tagOp s ui
        = focusOp (attachstackOp (attachOp (setcl (detachstackOp (detachOp s c) c) c
            ⟨(s.cl c).mon, ui⟩) c) c) none := by
      unfold tagOp
      rw [hsel]
      rfl
    rw [heq]
    obtain ⟨hsok5, hsel5, hlen5, hframe5, hsv5⟩ :=
      moveOps_spec s c ⟨(s.cl c).mon, ui⟩ ⟨hsm, hWFr⟩
    obtain ⟨f1, f2, f3, f4, f5, f6, f7, f8⟩ := focusOp_none_spec _ hsok5
    intro k hk
    rw [f3, hlen5] at hk
    by_cases hks : k = s.selmon
    · subst hks
      have hksel : s.selmon
          = (focusOp (attachstackOp (attachOp (setcl (detachstackOp (detachOp s c) c) c
              ⟨(s.cl c).mon, ui⟩) c) c) none).selmon := by
        rw [f1, hsel5]
      rw [hksel]
      exact f7
    · have hk5 : k ≠ (attachstackOp (attachOp (setcl (detachstackOp (detachOp s c) c) c
          ⟨(s.cl c).mon, ui⟩) c) c).selmon := by
        rw [hsel5]
        exact hks
      have hkm : k ≠ (s.cl c).mon := by
        rw [hcm]
        exact hks
      unfold selviewAt
      rw [f4 k hk5, hframe5 k hkm hkm]
      exact hInv k hk

/-- The `detach; detachstack` prefix of `unmanage`, written out. -/
theorem detachPhase_eq (s : WM) (c : CId) :
    detachstackOp (detachOp s c) c
      = modifyView (modifyView s ((s.cl c).mon) ((s.cl c).view)
          (fun v => { v with clients := v.clients.erase c }))
          ((s.cl c).mon) ((s.cl c).view) (fun v => dstackView v c) := by
  unfold detachOp detachstackOp
  rw [modifyView_cl]

/-- `unmanage` preserves the invariant on every monitor: `detachstack`
repairs `sel` on the view that loses the client, and the closing
`focus(NULL)` calls repair the selected view. -/
theorem unmanageOp_Inv (s : WM) (c : CId) (hWF : WF s) (hInv : Inv s) :
    Inv (unmanageOp s c) := by
  obtain ⟨hsm, hWFr⟩ := hWF
  have hD := detachPhase_eq s c
  have hsel2 : (detachstackOp (detachOp s c) c).selmon = s.selmon := by
    rw [hD]
    simp only [modifyView_selmon]
  have hcl2 : (detachstackOp (detachOp s c) c).cl = s.cl := by
    rw [hD]
    simp only [modifyView_cl]
  have hlen2 : (detachstackOp (detachOp s c) c).mons.length = s.mons.length := by
    rw [hD]
    simp only [modifyView_len]
  have hsv2 : ∀ k, (getMon (detachstackOp (detachOp s c) c) k).selview
      = (getMon s k).selview := by
    intro k
    rw [hD]
    simp only [selview_modifyView]
  have hvl2 : ∀ k, (getMon (detachstackOp (detachOp s c) c) k).views.length
      = (getMon s k).views.length := by
    intro k
    rw [hD]
    simp only [viewslen_modifyView]
  have hframe2 : ∀ k, k ≠ (s.cl c).mon →
      getMon (detachstackOp (detachOp s c) c) k = getMon s k := by
    intro k hk
    rw [hD, getMon_modifyView_ne _ _ _ _ _ hk, getMon_modifyView_ne _ _ _ _ _ hk]
  have hsok2 : SelOK (detachstackOp (detachOp s c) c) := by
    refine ⟨?_, ?_, ?_⟩
    · rw [hsel2, hlen2]
      exact hsm
    · rw [hsel2, hsv2, hvl2]
      exact (hWFr s.selmon hsm).1
    · intro d hd
      rw [show selviewOf (detachstackOp (detachOp s c) c)
          = selviewAt (detachstackOp (detachOp s c) c) s.selmon by
        unfold selviewOf
        rw [hsel2]] at hd
      unfold selviewAt at hd
      rw [hsv2] at hd
      rw [hsel2, hsv2, hcl2]
      have hdmem : d ∈ (getViewM (getMon s s.selmon) ((getMon s s.selmon).selview)).stack := by
        rw [hD] at hd
        by_cases him : (s.cl c).mon = s.selmon
        · by_cases hjm : (s.cl c).view = (getMon s s.selmon).selview
          · rw [← hjm, ← him] at hd
            rw [getViewM_modifyView_self _ _ _ _ (by rw [modifyView_len, him]; exact hsm)
              (by rw [viewslen_modifyView, him, hjm]; exact (hWFr s.selmon hsm).1)] at hd
            rw [getViewM_modifyView_self _ _ _ _ (by rw [him]; exact hsm)
              (by rw [him, hjm]; exact (hWFr s.selmon hsm).1)] at hd
            have hd2 : d ∈ ((getViewM (getMon s ((s.cl c).mon)) ((s.cl c).view)).stack).erase c := hd
            rw [him, hjm] at hd2
            exact List.mem_of_mem_erase hd2
          · rw [him] at hd
            rw [getViewM_modifyView_ne_j _ _ _ _ _ (fun h => hjm h.symm),
              getViewM_modifyView_ne_j _ _ _ _ _ (fun h => hjm h.symm)] at hd
            exact hd
        · rw [getViewM_modifyView_ne_i _ _ _ _ _ _ (fun h => him h.symm),
            getViewM_modifyView_ne_i _ _ _ _ _ _ (fun h => him h.symm)] at hd
          exact hd
      exact ((hWFr s.selmon hsm).2 _ (hWFr s.selmon hsm).1).2 d hdmem
  have hInv2k : ∀ k, k < s.mons.length → viewInv (selviewAt (detachstackOp (detachOp s c) c) k) := by
    intro k hk
    unfold selviewAt
    rw [hsv2]
    by_cases hkim : k = (s.cl c).mon
    · subst hkim
      rw [hD]
      by_cases hjm2 : (s.cl c).view = (getMon s ((s.cl c).mon)).selview
      · rw [← hjm2]
        rw [getViewM_modifyView_self _ _ _ _ (by rw [modifyView_len]; exact hk)
          (by rw [viewslen_modifyView, hjm2]; exact (hWFr _ hk).1)]
        rw [getViewM_modifyView_self _ _ _ _ hk (by rw [hjm2]; exact (hWFr _ hk).1)]
        refine dstackView_viewInv _ c ?_
        show viewInv (getViewM (getMon s ((s.cl c).mon)) ((s.cl c).view))
        rw [hjm2]
        exact hInv _ hk
      · rw [getViewM_modifyView_ne_j _ _ _ _ _ (fun h => hjm2 h.symm),
          getViewM_modifyView_ne_j _ _ _ _ _ (fun h => hjm2 h.symm)]
        exact hInv _ hk
    · rw [hframe2 k hkim]
      exact hInv k hk
  have heq : unmanageOp s c
      = focusOp (focusOp (detachstackOp (detachOp s c) c) none) none := rfl
  rw [heq]
  obtain ⟨f1, f2, f3, f4, f5, f6, f7, f8⟩ := focusOp_none_spec _ hsok2
  obtain ⟨g1, g2, g3, g4, g5, g6, g7, g8⟩ := focusOp_none_spec _ f8
  intro k hk
  rw [g3, f3, hlen2] at hk
  by_cases hks : k = s.selmon
  · subst hks
    have hksel : s.selmon
        = (focusOp (focusOp (detachstackOp (detachOp s c) c) none) none).selmon := by
      rw [g1, f1, hsel2]
    rw [hksel]
    exact g7
  · have hkf : k ≠ (focusOp (detachstackOp (detachOp s c) c) none).selmon := by
      rw [f1, hsel2]
      exact hks
    have hk1 : k ≠ (detachstackOp (detachOp s c) c).selmon := by
      rw [hsel2]
      exact hks
    unfold selviewAt
    rw [g4 k hkf, f4 k hk1]
    exact hInv2k k hk

/-- After `sendmon`, the selected view of the selected monitor
satisfies the invariant: the closing `focus(NULL)` calls repair it.
(The destination monitor's selected view is *not* repaired.) -/
theorem sendmonOp_selviewInv (s : WM) (c : CId) (mi : ℕ) (hWF : WF s) (hInv : Inv s) :
    viewInv (selviewOf (sendmonOp s c mi)) := by
  unfold sendmonOp
  split_ifs with hne
  · obtain ⟨hsok5, hsel5, hlen5, hframe5, hsv5⟩ :=
      moveOps_spec s c ⟨mi, (getMon (detachstackOp (detachOp s c) c) mi).selview⟩ hWF
    obtain ⟨f1, f2, f3, f4, f5, f6, f7, f8⟩ := focusOp_none_spec _ hsok5
    obtain ⟨g1, g2, g3, g4, g5, g6, g7, g8⟩ := focusOp_none_spec _ f8
    exact g7
  · exact hInv s.selmon hWF.1

/-- C3 (counterexample): the claimed invariant — every monitor's
selected view has `sel` null or equal to its focus-stack head — is
*not* preserved by `sendmon`.  Starting from a well-formed two-monitor
state satisfying the invariant, sending client 1 to monitor 1 leaves
monitor 1's selected view with `sel = 2` while its stack head is 1:
`sendmon` never updates the destination monitor's `sel`, and the
closing `focus(NULL)`/`arrange(NULL)` only repair the *selected*
monitor. -/
theorem claim3_counterexample :
    WF (⟨[⟨0, [⟨[1], some 1, [1]⟩]⟩, ⟨0, [⟨[2], some 2, [2]⟩]⟩], 0,
        fun c => if c = 1 then ⟨0, 0⟩ else ⟨1, 0⟩⟩ : WM) ∧
    Inv (⟨[⟨0, [⟨[1], some 1, [1]⟩]⟩, ⟨0, [⟨[2], some 2, [2]⟩]⟩], 0,
        fun c => if c = 1 then ⟨0, 0⟩ else ⟨1, 0⟩⟩ : WM) ∧
    ¬ Inv (sendmonOp (⟨[⟨0, [⟨[1], some 1, [1]⟩]⟩, ⟨0, [⟨[2], some 2, [2]⟩]⟩], 0,
        fun c => if c = 1 then ⟨0, 0⟩ else ⟨1, 0⟩⟩ : WM) 1 1) := by
  decide

/-- C3 (amended): from any well-formed state satisfying the
invariant, `focus` on a client of the selected view of its monitor,
`focus(NULL)`, `tag` and `unmanage` preserve the invariant on every
monitor; `sendmon` re-establishes it on the selected monitor's
selected view (but, per the counterexample, not on the destination
monitor). -/
theorem claim3_amended (s : WM) (hWF : WF s) (hInv : Inv s) :
    (∀ c, (s.cl c).mon < s.mons.length →
      (s.cl c).view = (getMon s (s.cl c).mon).selview →
      Inv (focusOp s (some c))) ∧
    Inv (focusOp s none) ∧
    (∀ ui, Inv (tagOp s ui)) ∧
    (∀ c, Inv (unmanageOp s c)) ∧
    (∀ c mi, viewInv (selviewOf (sendmonOp s c mi))) := by
  refine ⟨?_, ?_, ?_, ?_, ?_⟩
  · intro c hic hjc
    exact focusOp_some_Inv s c hInv hic hjc ((hWF.2 _ hic).1)
  · exact focusOp_none_Inv s (WF_SelOK s hWF) hInv
  · intro ui
    exact tagOp_Inv s ui hWF hInv
  · intro c
    exact unmanageOp_Inv s c hWF hInv
  · intro c mi
    exact sendmonOp_selviewInv s c mi hWF hInv

/-- C3 (witness): the amended theorem applied to a concrete
well-formed one-monitor state. -/
theorem claim3_witness :
    WF (⟨[⟨0, [⟨[], none, []⟩]⟩], 0, fun _ => ⟨0, 0⟩⟩ : WM) ∧
    Inv (⟨[⟨0, [⟨[], none, []⟩]⟩], 0, fun _ => ⟨0, 0⟩⟩ : WM) ∧
    Inv (focusOp (⟨[⟨0, [⟨[], none, []⟩]⟩], 0, fun _ => ⟨0, 0⟩⟩ : WM) none) :=
  ⟨by decide, by decide,
    (claim3_amended (⟨[⟨0, [⟨[], none, []⟩]⟩], 0, fun _ => ⟨0, 0⟩⟩ : WM)
      (by decide) (by decide)).2.1⟩

end Dwm
